import Mathlib

/-!
# libsrf: the SRF container decoder

A shallow embedding of `DecodeSrfFile` (libsrf.go) and a verification of its
specification.

Modelling decisions.

* The `*os.File` argument is a regular file with fixed contents: a size and a
  byte at every offset below the size (`Source`).  The size is not bounded, so
  that files of 4 GiB and more can be written down without listing their bytes.
  I/O failures other than reading past the end of the file, and a failing
  `Stat`, are outside the model.
* `int` is the 64-bit signed integer of the usual Go targets; `int` and `int64`
  arithmetic wraps (`wrap64`), `uint32` arithmetic wraps (`wrap32`).
* Go's `(SrfData, error)` result is the pair `SrfData × Option DecodeError`.
  A `return` inside a loop is an early exit, modelled by `Except Ret`.
* Go maps are association lists with unique keys (`mapSet`, `mapGet`); a nil
  map and an empty map are both the empty list.
* The outer loop of `DecodeSrfFile` need not terminate, so it takes fuel: the
  number of times its condition may be evaluated.  `none` means the fuel ran
  out before the function returned.
* What a call leaves behind is stated on a second, state-passing embedding
  (`File`): the handle, with the file and its seek offset, goes into every
  `ReadAt` and `Stat` and comes out of it, and `File.DecodeSrfFile` returns the
  handle next to the result.  It is proved to compute what `DecodeSrfFile`
  computes (`DecodeSrfFile_on_handle`).
-/

namespace Libsrf

/-! ## Bytes, integers and the byte source -/

/-- A byte. -/
abbrev Byte := Fin 256

/-- A regular file: its size in bytes and the byte stored at each offset.
Only the bytes at offsets below `size` belong to the file. -/
structure Source where
  size : Nat
  byteAt : Nat → Byte

/-- The file whose contents are the given bytes. -/
def Source.ofList (l : List Byte) : Source :=
  ⟨l.length, fun i => l.getD i 0⟩

/-- Two's-complement wrap-around of 64-bit signed arithmetic (`int`, `int64`). -/
def wrap64 (x : Int) : Int :=
  (x + 9223372036854775808) % 18446744073709551616 - 9223372036854775808

/-- Wrap-around of `uint32` arithmetic. -/
def wrap32 (x : Nat) : Nat :=
  x % 4294967296

/-- Addition of two `int` (or `int64`) values. -/
def addInt (a b : Int) : Int :=
  wrap64 (a + b)

/-- Multiplication of two `int` values. -/
def mulInt (a b : Int) : Int :=
  wrap64 (a * b)

/-- `binary.BigEndian.Uint32` on a 4-byte buffer. -/
def Uint32 (b : List Byte) : Nat :=
  (b.getD 0 0).val * 16777216 + (b.getD 1 0).val * 65536 + (b.getD 2 0).val * 256 + (b.getD 3 0).val

/-- The `n` bytes of the file that start at offset `off`. -/
def bytes (f : Source) (off n : Nat) : List Byte :=
  (List.range n).map fun i => f.byteAt (off + i)

/-- Why a positioned read failed. -/
inductive ReadError where
  | eof
  | negativeOffset
  deriving DecidableEq, Repr

/-- `(*os.File).ReadAt` with a buffer of `len` bytes at offset `off`: a negative
offset is an error; an empty buffer is filled without touching the file; otherwise
the read succeeds exactly when all `len` bytes lie inside the file, and reports
`io.EOF` when they do not. -/
def ReadAt (f : Source) (len : Nat) (off : Int) : Except ReadError (List Byte) :=
  if off < 0 then .error .negativeOffset
  else if len = 0 then .ok []
  else if off.toNat + len ≤ f.size then .ok (bytes f off.toNat len)
  else .error .eof

/-! ## Results -/

deriving instance DecidableEq for Except

/-- Go map lookup in an association list. -/
def mapGet {K V : Type} [DecidableEq K] : List (K × V) → K → Option V
  | [], _ => none
  | (k', v) :: m, k => if k' = k then some v else mapGet m k

/-- Go map assignment `m[k] = v`: replaces the value of an existing key, adds
the key otherwise. -/
def mapSet {K V : Type} [DecidableEq K] : List (K × V) → K → V → List (K × V)
  | [], k, v => [(k, v)]
  | (k', v') :: m, k, v => if k' = k then (k, v) :: m else (k', v') :: mapSet m k v

/-- The keys of a map. -/
def mapKeys {K V : Type} (m : List (K × V)) : List K :=
  m.map Prod.fst

/-- `SrfResource`: the identifier and the items, a map from item number (`int`)
to payload. -/
structure SrfResource where
  Id : List Byte
  Items : List (Int × List Byte)
  deriving DecidableEq, Repr

/-- `SrfData`: a map from identifier (a Go string, i.e. bytes) to resource. -/
structure SrfData where
  Resources : List (List Byte × SrfResource)
  deriving DecidableEq, Repr

/-- The zero value `SrfData{}`. -/
def SrfData.empty : SrfData :=
  ⟨[]⟩

/-- The errors `DecodeSrfFile` builds with `fmt.Errorf`, one constructor per
format string, carrying the arguments of the format. -/
inductive DecodeError where
  | readMagic (err : ReadError)
  | invalidMagic (got : List Byte)
  | readFileLength (err : ReadError)
  | fileSizeIncorrect (expected : Nat) (got : Nat)
  | readHeaderLength (err : ReadError)
  | readResourceId (err : ReadError)
  | readResourceItemsLen (err : ReadError)
  | readItemNumber (err : ReadError)
  | readItemOffset (err : ReadError)
  | readItemSize (err : ReadError)
  | readItem (err : ReadError)
  deriving DecidableEq, Repr

/-- The bytes of an ASCII text. -/
def ascii (s : String) : List Byte :=
  s.toList.map fun c => Fin.ofNat c.toNat

/-- The `%d` rendering of a non-negative integer. -/
def decimal (n : Nat) : List Byte :=
  ascii (Nat.repr n)

/-- The `%s` rendering of the error of a failed read; the file name that a
negative-offset error mentions is left out. -/
def ReadError.text : ReadError → List Byte
  | .eof => ascii "EOF"
  | .negativeOffset => ascii "readat: negative offset"

/-- The message of an error, as a Go string (bytes).  Byte 0x22 is the double
quote. -/
def DecodeError.message : DecodeError → List Byte
  | .readMagic err => ascii "failed to read magic: " ++ err.text
  | .invalidMagic got =>
      ascii "invalid magic: expected " ++ [0x22] ++ ascii "srf1" ++ [0x22] ++ ascii ", got "
        ++ [0x22] ++ got ++ [0x22]
  | .readFileLength err => ascii "failed to read file length: " ++ err.text
  | .fileSizeIncorrect expected got =>
      ascii "file size is incorrect: expected " ++ decimal expected ++ ascii ", got " ++ decimal got
  | .readHeaderLength err => ascii "failed to read header length: " ++ err.text
  | .readResourceId err => ascii "failed to read resource identifier: " ++ err.text
  | .readResourceItemsLen err => ascii "failed to read resource items length: " ++ err.text
  | .readItemNumber err => ascii "failed to read resource item number: " ++ err.text
  | .readItemOffset err => ascii "failed to read resource item offset: " ++ err.text
  | .readItemSize err => ascii "failed to read resource item size: " ++ err.text
  | .readItem err => ascii "failed to read resource item: " ++ err.text

/-- What `DecodeSrfFile` returns: Go's `(SrfData, error)`, `none` being `nil`. -/
abbrev Ret := SrfData × Option DecodeError

/-- The magic `"srf1"`. -/
def srf1 : List Byte :=
  [0x73, 0x72, 0x66, 0x31]

/-! ## The decoder -/

/-- The variables of the item loop that live across its iterations:
`lastResourceStartOffset` and `resource.Items`. -/
structure ItemState where
  cursor : Int
  items : List (Int × List Byte)
  deriving DecidableEq, Repr

/-- The variables of the resource loop that live across its iterations:
`lastResourceStartOffset` and `srfData`. -/
structure LoopState where
  cursor : Int
  data : SrfData
  deriving DecidableEq, Repr

/-- One iteration of `for i := range n` (lines 71-101), `n` being the decoded
`resourceItemsLen` and `i` the `uint32` loop variable. -/
def itemBody (f : Source) (n i : Nat) (st : ItemState) : Except Ret ItemState :=
  match ReadAt f 4 (addInt (addInt st.cursor 8) (Int.ofNat (wrap32 (i * 12)))) with
  | .error err => .error (SrfData.empty, some (.readItemNumber err))
  | .ok resourceItemNum =>
    match ReadAt f 4 (addInt (addInt st.cursor 12) (Int.ofNat (wrap32 (i * 12)))) with
    | .error err => .error (SrfData.empty, some (.readItemOffset err))
    | .ok resourceItemOffset =>
      match ReadAt f 4 (addInt (addInt st.cursor 16) (Int.ofNat (wrap32 (i * 12)))) with
      | .error err => .error (SrfData.empty, some (.readItemSize err))
      | .ok resourceItemSize =>
        match ReadAt f (Uint32 resourceItemSize) (Int.ofNat (Uint32 resourceItemOffset)) with
        | .error err => .error (SrfData.empty, some (.readItem err))
        | .ok resourceItemData =>
          let items := mapSet st.items (Int.ofNat (Uint32 resourceItemNum)) resourceItemData
          if wrap32 (i + 1) = n then
            .ok ⟨addInt st.cursor (addInt 8 (mulInt (Int.ofNat n) 12)), items⟩
          else
            .ok ⟨st.cursor, items⟩

/-- The item loop `for i := range n`: `k` iterations remain, the next one has
loop variable `i`.  The whole loop is `itemLoop f n n 0`. -/
def itemLoop (f : Source) (n : Nat) : Nat → Nat → ItemState → Except Ret ItemState
  | 0, _, st => .ok st
  | k + 1, i, st =>
    match itemBody f n i st with
    | .error r => .error r
    | .ok st' => itemLoop f n k (i + 1) st'

/-- One iteration of the resource loop (lines 57-103). -/
def resourceBody (f : Source) (st : LoopState) : Except Ret LoopState :=
  match ReadAt f 4 st.cursor with
  | .error err => .error (SrfData.empty, some (.readResourceId err))
  | .ok resourceId =>
    match ReadAt f 4 (addInt st.cursor 4) with
    | .error err => .error (SrfData.empty, some (.readResourceItemsLen err))
    | .ok resourceItemsLen =>
      match itemLoop f (Uint32 resourceItemsLen) (Uint32 resourceItemsLen) 0 ⟨st.cursor, []⟩ with
      | .error r => .error r
      | .ok ist =>
        .ok ⟨ist.cursor, ⟨mapSet st.data.Resources resourceId ⟨resourceId, ist.items⟩⟩⟩

/-- The resource loop `for lastResourceStartOffset != target` (lines 55-106)
with the final `return srfData, nil`. -/
def resourceLoop (f : Source) (target : Int) : Nat → LoopState → Option Ret
  | 0, _ => none
  | fuel + 1, st =>
    if st.cursor = target then some (st.data, none)
    else
      match resourceBody f st with
      | .error r => some r
      | .ok st' => resourceLoop f target fuel st'

/-- The fixed header (lines 19-50): the checks of the magic and of the file
length, and the read of the header length, whose four bytes are the result. -/
def decodeHeader (f : Source) : Except Ret (List Byte) :=
  match ReadAt f 4 0 with
  | .error err => .error (SrfData.empty, some (.readMagic err))
  | .ok magic =>
    if magic ≠ srf1 then .error (SrfData.empty, some (.invalidMagic magic))
    else
      match ReadAt f 4 4 with
      | .error err => .error (SrfData.empty, some (.readFileLength err))
      | .ok fileLen =>
        if Uint32 fileLen ≠ wrap32 f.size then
          .error (SrfData.empty, some (.fileSizeIncorrect (Uint32 fileLen) f.size))
        else
          match ReadAt f 4 8 with
          | .error err => .error (SrfData.empty, some (.readHeaderLength err))
          | .ok headerLen => .ok headerLen

/-- The value the cursor is compared with: `0x0C + int(headerLen)`. -/
def loopTarget (headerLen : List Byte) : Int :=
  addInt 12 (Int.ofNat (Uint32 headerLen))

/-- The state in which the resource loop starts: cursor `0x0C`, no resources. -/
def loopStart : LoopState :=
  ⟨12, ⟨[]⟩⟩

/-- `DecodeSrfFile`, with fuel for the resource loop. -/
def DecodeSrfFile (fuel : Nat) (f : Source) : Option Ret :=
  match decodeHeader f with
  | .error r => some r
  | .ok headerLen => resourceLoop f (loopTarget headerLen) fuel loopStart

/-- `DecodeSrfFile` returns `r` on `f`. -/
def Returns (f : Source) (r : Ret) : Prop :=
  ∃ fuel, DecodeSrfFile fuel f = some r

/-- `DecodeSrfFile` never returns on `f`. -/
def Diverges (f : Source) : Prop :=
  ∀ fuel, DecodeSrfFile fuel f = none

/-- A result returned from inside a loop or from the header checks: the zero
`SrfData` together with an error. -/
def IsFailure (r : Ret) : Prop :=
  r.1 = SrfData.empty ∧ r.2 ≠ none

/-! ## The walk of the directory -/

/-- The state of the resource loop after `k` completed iterations, when the
loop gets that far: none of the first `k` cursors equals `target` and none of
the first `k` iterations returns. -/
def walk (f : Source) (target : Int) : Nat → Option LoopState
  | 0 => some loopStart
  | k + 1 =>
    match walk f target k with
    | none => none
    | some st =>
      if st.cursor = target then none
      else
        match resourceBody f st with
        | .error _ => none
        | .ok st' => some st'

/-- The state of the item loop of an entry at `cursor` with `n` records after
`i` completed iterations, when the loop gets that far. -/
def itemWalk (f : Source) (n : Nat) (cursor : Int) : Nat → Option ItemState
  | 0 => some ⟨cursor, []⟩
  | i + 1 =>
    match itemWalk f n cursor i with
    | none => none
    | some st =>
      match itemBody f n i st with
      | .error _ => none
      | .ok st' => some st'

/-- An item record of the directory: item number, payload offset, payload size. -/
structure Record where
  num : Nat
  off : Nat
  size : Nat
  deriving DecidableEq, Repr

/-- The three fields of item record `i` as iteration `i` of the item loop
reads them, when the three reads succeed. -/
def readRecord (f : Source) (cursor : Int) (i : Nat) : Option Record :=
  match ReadAt f 4 (addInt (addInt cursor 8) (Int.ofNat (wrap32 (i * 12)))),
      ReadAt f 4 (addInt (addInt cursor 12) (Int.ofNat (wrap32 (i * 12)))),
      ReadAt f 4 (addInt (addInt cursor 16) (Int.ofNat (wrap32 (i * 12)))) with
  | .ok a, .ok b, .ok c => some ⟨Uint32 a, Uint32 b, Uint32 c⟩
  | _, _, _ => none

/-- The directory walk reaches the item record `r`: the fixed header is valid,
the resource loop gets to an iteration whose cursor differs from the target,
the identifier and the item count `n` of the entry there are readable, the item
loop gets to an iteration `i < n`, and the three field reads of that iteration
succeed and decode to `r`. -/
def ReachesRecord (f : Source) (r : Record) : Prop :=
  ∃ (hl : List Byte) (k : Nat) (st : LoopState) (id nb : List Byte) (i : Nat) (ist : ItemState),
    decodeHeader f = .ok hl ∧ walk f (loopTarget hl) k = some st ∧ st.cursor ≠ loopTarget hl ∧
    ReadAt f 4 st.cursor = .ok id ∧ ReadAt f 4 (addInt st.cursor 4) = .ok nb ∧
    i < Uint32 nb ∧ itemWalk f (Uint32 nb) st.cursor i = some ist ∧
    readRecord f ist.cursor i = some r

/-! ## Well-formed sources -/

/-- A resource entry of the directory: identifier and item records. -/
structure Entry where
  id : List Byte
  recs : List Record
  deriving DecidableEq, Repr

/-- The big-endian `u32` stored at offset `off`. -/
def be32At (f : Source) (off : Nat) : Nat :=
  Uint32 (bytes f off 4)

/-- The size in bytes of a resource entry: `8 + 12 * item_count`. -/
def Entry.size (e : Entry) : Nat :=
  8 + 12 * e.recs.length

/-- The bytes at `c` are the resource entry `e`: the 4-byte identifier, the
item count (at least 1), and record `i` at `+8+12i`, `+12+12i`, `+16+12i`. -/
def EntryAt (f : Source) (c : Nat) (e : Entry) : Prop :=
  bytes f c 4 = e.id ∧ be32At f (c + 4) = e.recs.length ∧ 1 ≤ e.recs.length ∧
  ∀ (i : Nat) (h : i < e.recs.length),
    be32At f (c + 8 + 12 * i) = (e.recs[i]).num ∧
    be32At f (c + 12 + 12 * i) = (e.recs[i]).off ∧
    be32At f (c + 16 + 12 * i) = (e.recs[i]).size

/-- The bytes at `c` are the entries of `dir`, back to back. -/
def DirAt (f : Source) : Nat → List Entry → Prop
  | _, [] => True
  | c, e :: es => EntryAt f c e ∧ DirAt f (c + e.size) es

/-- The total size of the entries of a directory. -/
def dirSize (dir : List Entry) : Nat :=
  (dir.map Entry.size).sum

/-- A well-formed source with directory `dir`: smaller than 2^32 bytes, magic
`"srf1"`, file length equal to the size, the directory at `0x0C` made of the
entries of `dir` and lying inside the source, the entry sizes summing to the
header length, and every payload range inside the source. -/
structure WellFormed (f : Source) (dir : List Entry) : Prop where
  small : f.size < 4294967296
  magic : bytes f 0 4 = srf1
  fileLength : be32At f 4 = f.size
  headerLength : be32At f 8 = dirSize dir
  inside : 12 + dirSize dir ≤ f.size
  directory : DirAt f 12 dir
  payloads : ∀ e ∈ dir, ∀ r ∈ e.recs, r.off + r.size ≤ f.size

/-- The payload bytes an item record points to. -/
def payload (f : Source) (r : Record) : List Byte :=
  bytes f r.off r.size

/-- The last entry of the directory with identifier `id`. -/
def lastEntry (dir : List Entry) (id : List Byte) : Option Entry :=
  dir.reverse.find? fun e => decide (e.id = id)

/-- The last record of the entry with item number `num`. -/
def lastRecord (e : Entry) (num : Int) : Option Record :=
  e.recs.reverse.find? fun r => decide ((r.num : Int) = num)

/-- The items map the item loop builds from a list of records, starting from `m`. -/
def itemsFrom (f : Source) (m : List (Int × List Byte)) (recs : List Record) :
    List (Int × List Byte) :=
  recs.foldl (fun m r => mapSet m (r.num : Int) (payload f r)) m

/-- The resource the decoder builds from an entry. -/
def entryResource (f : Source) (e : Entry) : SrfResource :=
  ⟨e.id, itemsFrom f [] e.recs⟩

/-- The resources map the resource loop builds from a directory, starting from `m`. -/
def resourcesFrom (f : Source) (m : List (List Byte × SrfResource)) (dir : List Entry) :
    List (List Byte × SrfResource) :=
  dir.foldl (fun m e => mapSet m e.id (entryResource f e)) m

/-! ## Example sources -/

/-- The four bytes of a big-endian `u32`. -/
def putU32 (n : Nat) : List Byte :=
  [Fin.ofNat (n / 16777216 % 256), Fin.ofNat (n / 65536 % 256), Fin.ofNat (n / 256 % 256),
    Fin.ofNat (n % 256)]

/-- The minimal file: 12 bytes, no directory. -/
def exMinimal : Source :=
  Source.ofList (srf1 ++ putU32 12 ++ putU32 0)

/-- One resource `TEX0` with items 0 (`AAAA`) and 1 (`BBB`). -/
def exTex0 : Source :=
  Source.ofList (srf1 ++ putU32 51 ++ putU32 32 ++
    ascii "TEX0" ++ putU32 2 ++ putU32 0 ++ putU32 44 ++ putU32 4 ++ putU32 1 ++ putU32 48 ++ putU32 3 ++
    ascii "AAAABBB")

/-- The directory of `exTex0`. -/
def exTex0Dir : List Entry :=
  [⟨ascii "TEX0", [⟨0, 44, 4⟩, ⟨1, 48, 3⟩]⟩]

/-- The directory of `exSameId`. -/
def exSameIdDir : List Entry :=
  [⟨ascii "TEX0", [⟨0, 64, 2⟩, ⟨1, 66, 2⟩]⟩, ⟨ascii "TEX0", [⟨5, 68, 2⟩]⟩]

/-- The directory of `exSameItem`. -/
def exSameItemDir : List Entry :=
  [⟨ascii "TEX0", [⟨7, 56, 2⟩, ⟨7, 58, 2⟩, ⟨9, 60, 2⟩]⟩]

/-- A 20-byte file whose only entry `TEX0` has item count 0. -/
def exZeroCount : Source :=
  Source.ofList (srf1 ++ putU32 20 ++ putU32 8 ++ ascii "TEX0" ++ putU32 0)

/-- A 40-byte file with header length 4: the entry `AAAA` at 12 has one record
and ends at 32, beyond the target 16; the entry `BBBB` at 32 has item count 0. -/
def exOvershoot : Source :=
  Source.ofList (srf1 ++ putU32 40 ++ putU32 4 ++
    ascii "AAAA" ++ putU32 1 ++ putU32 0 ++ putU32 0 ++ putU32 0 ++
    ascii "BBBB" ++ putU32 0)

/-- A file of 2^32 + 12 bytes: `srf1`, file length 12, header length 0, then zeros. -/
def exHuge : Source :=
  ⟨4294967296 + 12, fun i => (srf1 ++ putU32 12 ++ putU32 0).getD i 0⟩

/-- A 12-byte file with magic `srf2`. -/
def exSrf2 : Source :=
  Source.ofList (ascii "srf2" ++ putU32 12 ++ putU32 0)

/-- A 32-byte file whose only record has offset 1000 and size 0. -/
def exZeroSizeItem : Source :=
  Source.ofList (srf1 ++ putU32 32 ++ putU32 20 ++
    ascii "TEX0" ++ putU32 1 ++ putU32 7 ++ putU32 1000 ++ putU32 0)

/-- A 32-byte file whose only record has offset 30 and size 4. -/
def exPastEnd : Source :=
  Source.ofList (srf1 ++ putU32 32 ++ putU32 20 ++
    ascii "TEX0" ++ putU32 1 ++ putU32 7 ++ putU32 30 ++ putU32 4)

/-- Two entries `TEX0`: the first with items 0 and 1, the second with item 5. -/
def exSameId : Source :=
  Source.ofList (srf1 ++ putU32 70 ++ putU32 52 ++
    ascii "TEX0" ++ putU32 2 ++ putU32 0 ++ putU32 64 ++ putU32 2 ++ putU32 1 ++ putU32 66 ++ putU32 2 ++
    ascii "TEX0" ++ putU32 1 ++ putU32 5 ++ putU32 68 ++ putU32 2 ++
    ascii "aabbcc")

/-- One entry `TEX0` that lists item 7 twice, then item 9. -/
def exSameItem : Source :=
  Source.ofList (srf1 ++ putU32 62 ++ putU32 44 ++
    ascii "TEX0" ++ putU32 3 ++ putU32 7 ++ putU32 56 ++ putU32 2 ++ putU32 7 ++ putU32 58 ++ putU32 2 ++
    putU32 9 ++ putU32 60 ++ putU32 2 ++
    ascii "aabbcc")

/-- A 52-byte file with header length 40: the entry `AAAA` decodes, the entry
`BBBB` after it has a record whose payload lies beyond the end. -/
def exLateFailure : Source :=
  Source.ofList (srf1 ++ putU32 52 ++ putU32 40 ++
    ascii "AAAA" ++ putU32 1 ++ putU32 0 ++ putU32 0 ++ putU32 4 ++
    ascii "BBBB" ++ putU32 1 ++ putU32 0 ++ putU32 50 ++ putU32 4)

/-! ## Notions for the walk -/

/-- The walk reaches record `i` of the entry at cursor `R`, and the three field
reads of that record decode to `r`: as `ReachesRecord`, with the cursor and the
index named. -/
def ReachesRecordAt (f : Source) (R : Int) (i : Nat) (r : Record) : Prop :=
  ∃ (hl : List Byte) (k : Nat) (st : LoopState) (id nb : List Byte) (ist : ItemState),
    decodeHeader f = .ok hl ∧ walk f (loopTarget hl) k = some st ∧ st.cursor ≠ loopTarget hl ∧
    st.cursor = R ∧
    ReadAt f 4 st.cursor = .ok id ∧ ReadAt f 4 (addInt st.cursor 4) = .ok nb ∧
    i < Uint32 nb ∧ itemWalk f (Uint32 nb) st.cursor i = some ist ∧
    readRecord f ist.cursor i = some r

/-- The walk reaches a resource entry whose item count is 0: the fixed header
is valid, the resource loop gets to an iteration whose cursor differs from the
target, and the identifier and the item count there are readable, the count
being 0. -/
def ReachesEmptyEntry (f : Source) : Prop :=
  ∃ (hl : List Byte) (k : Nat) (st : LoopState) (id nb : List Byte),
    decodeHeader f = .ok hl ∧ walk f (loopTarget hl) k = some st ∧ st.cursor ≠ loopTarget hl ∧
    ReadAt f 4 st.cursor = .ok id ∧ ReadAt f 4 (addInt st.cursor 4) = .ok nb ∧ Uint32 nb = 0

/-- The item count of the entry at the cursor of a state (0 when unreadable). -/
def countAt (f : Source) (st : LoopState) : Nat :=
  match ReadAt f 4 (addInt st.cursor 4) with
  | .ok nb => Uint32 nb
  | .error _ => 0

/-- The item counts of the entries the first `k` iterations of the resource loop
walk over. -/
def walkCounts (f : Source) (target : Int) (k : Nat) : List Nat :=
  (List.range k).map fun j =>
    match walk f target j with
    | some st => countAt f st
    | none => 0

/-- Two sources have the same bytes at the offsets from `lo` up to `hi`. -/
def AgreeOn (a b : Source) (lo hi : Nat) : Prop :=
  ∀ j, lo ≤ j → j < hi → a.byteAt j = b.byteAt j

/-- A well-formed source, except that the payload range of a record of size 0
need not lie inside the source. -/
structure WellFormedUpToEmpty (f : Source) (dir : List Entry) : Prop where
  small : f.size < 4294967296
  magic : bytes f 0 4 = srf1
  fileLength : be32At f 4 = f.size
  headerLength : be32At f 8 = dirSize dir
  inside : 12 + dirSize dir ≤ f.size
  directory : DirAt f 12 dir
  payloads : ∀ e ∈ dir, ∀ r ∈ e.recs, r.size = 0 ∨ r.off + r.size ≤ f.size

/-- A 10-byte file with a correct magic and a correct file length. -/
def exShort : Source :=
  Source.ofList (srf1 ++ putU32 10 ++ [0, 0])

/-- The file `exTex0`, seen as a size and a byte function with other bytes
beyond the end. -/
def exTex0Alias : Source :=
  ⟨51, fun i => if i < 51 then exTex0.byteAt i else 255⟩

/-- A 40-byte file: one entry `TEX0` with one record (item 3, offset 36, size 2);
the bytes 32 to 35 belong neither to the directory nor to a payload. -/
def exGapA : Source :=
  Source.ofList (srf1 ++ putU32 40 ++ putU32 20 ++
    ascii "TEX0" ++ putU32 1 ++ putU32 3 ++ putU32 36 ++ putU32 2 ++
    ascii "....ab..")

/-- The file `exGapA` with other bytes outside the directory and the payload. -/
def exGapB : Source :=
  Source.ofList (srf1 ++ putU32 40 ++ putU32 20 ++
    ascii "TEX0" ++ putU32 1 ++ putU32 3 ++ putU32 36 ++ putU32 2 ++
    ascii "XYZWabQR")

/-- The directory of `exZeroSizeItem`. -/
def exZeroSizeItemDir : List Entry :=
  [⟨ascii "TEX0", [⟨7, 1000, 0⟩]⟩]

/-! ## The file handle as state -/

/-- The state a call of `DecodeSrfFile` can reach besides its own local
variables: the open `*os.File` it is given, that is the file (size and bytes)
and the seek offset of the handle, from which `Read` and `Write` work.  The
package declares two types and one function and no variable, so there is no
other state that outlives a call. -/
structure File where
  source : Source
  offset : Nat

/-- `file.ReadAt(b, off)` with a buffer of `len` bytes, as a step on the handle:
the outcome of the read and the handle after it.  A positioned read neither uses
nor moves the seek offset, and writes nothing. -/
def File.ReadAt (h : File) (len : Nat) (off : Int) : Except ReadError (List Byte) × File :=
  (Libsrf.ReadAt h.source len off, h)

/-- `file.Stat()` followed by `.Size()`, as a step on the handle. -/
def File.Stat (h : File) : Nat × File :=
  (h.source.size, h)

/-- `file.Read(b)` with a buffer of `len` bytes: the sequential read, which takes
the bytes at the seek offset and moves the offset past them; at the end of the
file it reads nothing and reports `io.EOF`.  `DecodeSrfFile` does not call it;
it is here as the operation of the handle that leaves state behind. -/
def File.Read (h : File) (len : Nat) : Except ReadError (List Byte) × File :=
  if len = 0 then (.ok [], h)
  else if h.offset < h.source.size then
    (.ok (bytes h.source h.offset (min len (h.source.size - h.offset))),
      ⟨h.source, h.offset + min len (h.source.size - h.offset)⟩)
  else (.error .eof, h)

/-- `file.WriteAt(b, off)` on a file open for writing: the bytes of `b` are stored
from offset `off` on, the file grows when they end beyond its size, and a gap
between the old end and `off` reads as zeros.  `DecodeSrfFile` does not call it;
it is here as the operation of the handle that changes the file. -/
def File.WriteAt (h : File) (b : List Byte) (off : Nat) : File :=
  if b = [] then h
  else
    ⟨⟨max h.source.size (off + b.length), fun i =>
        if off ≤ i ∧ i < off + b.length then b.getD (i - off) 0
        else if i < h.source.size then h.source.byteAt i
        else if i < off then 0
        else h.source.byteAt i⟩, h.offset⟩

/-- One iteration of `for i := range n` (lines 71-101), every read a step on the
handle. -/
def File.itemBody (h : File) (n i : Nat) (st : ItemState) : Except Ret ItemState × File :=
  match h.ReadAt 4 (addInt (addInt st.cursor 8) (Int.ofNat (wrap32 (i * 12)))) with
  | (.error err, h1) => (.error (SrfData.empty, some (.readItemNumber err)), h1)
  | (.ok resourceItemNum, h1) =>
    match h1.ReadAt 4 (addInt (addInt st.cursor 12) (Int.ofNat (wrap32 (i * 12)))) with
    | (.error err, h2) => (.error (SrfData.empty, some (.readItemOffset err)), h2)
    | (.ok resourceItemOffset, h2) =>
      match h2.ReadAt 4 (addInt (addInt st.cursor 16) (Int.ofNat (wrap32 (i * 12)))) with
      | (.error err, h3) => (.error (SrfData.empty, some (.readItemSize err)), h3)
      | (.ok resourceItemSize, h3) =>
        match h3.ReadAt (Uint32 resourceItemSize) (Int.ofNat (Uint32 resourceItemOffset)) with
        | (.error err, h4) => (.error (SrfData.empty, some (.readItem err)), h4)
        | (.ok resourceItemData, h4) =>
          let items := mapSet st.items (Int.ofNat (Uint32 resourceItemNum)) resourceItemData
          if wrap32 (i + 1) = n then
            (.ok ⟨addInt st.cursor (addInt 8 (mulInt (Int.ofNat n) 12)), items⟩, h4)
          else
            (.ok ⟨st.cursor, items⟩, h4)

/-- The item loop `for i := range n` on the handle: `k` iterations remain, the
next one has loop variable `i`. -/
def File.itemLoop (n : Nat) : Nat → Nat → ItemState → File → Except Ret ItemState × File
  | 0, _, st, h => (.ok st, h)
  | k + 1, i, st, h =>
    match h.itemBody n i st with
    | (.error r, h1) => (.error r, h1)
    | (.ok st', h1) => File.itemLoop n k (i + 1) st' h1

/-- One iteration of the resource loop (lines 57-103) on the handle. -/
def File.resourceBody (h : File) (st : LoopState) : Except Ret LoopState × File :=
  match h.ReadAt 4 st.cursor with
  | (.error err, h1) => (.error (SrfData.empty, some (.readResourceId err)), h1)
  | (.ok resourceId, h1) =>
    match h1.ReadAt 4 (addInt st.cursor 4) with
    | (.error err, h2) => (.error (SrfData.empty, some (.readResourceItemsLen err)), h2)
    | (.ok resourceItemsLen, h2) =>
      match File.itemLoop (Uint32 resourceItemsLen) (Uint32 resourceItemsLen) 0 ⟨st.cursor, []⟩ h2 with
      | (.error r, h3) => (.error r, h3)
      | (.ok ist, h3) =>
        (.ok ⟨ist.cursor, ⟨mapSet st.data.Resources resourceId ⟨resourceId, ist.items⟩⟩⟩, h3)

/-- The resource loop (lines 55-106) on the handle, with the final
`return srfData, nil`: the result and the handle as the call leaves it. -/
def File.resourceLoop (target : Int) : Nat → LoopState → File → Option (Ret × File)
  | 0, _, _ => none
  | fuel + 1, st, h =>
    if st.cursor = target then some ((st.data, none), h)
    else
      match h.resourceBody st with
      | (.error r, h1) => some (r, h1)
      | (.ok st', h1) => File.resourceLoop target fuel st' h1

/-- The fixed header (lines 19-50) on the handle. -/
def File.decodeHeader (h : File) : Except Ret (List Byte) × File :=
  match h.ReadAt 4 0 with
  | (.error err, h1) => (.error (SrfData.empty, some (.readMagic err)), h1)
  | (.ok magic, h1) =>
    if magic ≠ srf1 then (.error (SrfData.empty, some (.invalidMagic magic)), h1)
    else
      match h1.ReadAt 4 4 with
      | (.error err, h2) => (.error (SrfData.empty, some (.readFileLength err)), h2)
      | (.ok fileLen, h2) =>
        match h2.Stat with
        | (size, h3) =>
          if Uint32 fileLen ≠ wrap32 size then
            (.error (SrfData.empty, some (.fileSizeIncorrect (Uint32 fileLen) size)), h3)
          else
            match h3.ReadAt 4 8 with
            | (.error err, h4) => (.error (SrfData.empty, some (.readHeaderLength err)), h4)
            | (.ok headerLen, h4) => (.ok headerLen, h4)

/-- `DecodeSrfFile(file)` as a step on the handle, with fuel for the resource
loop: what the call returns and the handle as the call leaves it. -/
def File.DecodeSrfFile (h : File) (fuel : Nat) : Option (Ret × File) :=
  match h.decodeHeader with
  | (.error r, h1) => some (r, h1)
  | (.ok headerLen, h1) => File.resourceLoop (loopTarget headerLen) fuel loopStart h1

/-- The file `exTex0` behind a handle whose seek offset is 0. -/
def exTex0File : File :=
  ⟨exTex0, 0⟩

/-- The file `exTex0Alias` behind a handle whose seek offset is 17. -/
def exTex0AliasFile : File :=
  ⟨exTex0Alias, 17⟩

/-! ## Lemmas -/

theorem wrap64_small (x : Int) (h0 : -9223372036854775808 ≤ x) (h1 : x < 9223372036854775808) :
    wrap64 x = x := by
  unfold wrap64; omega

theorem Uint32_lt (b : List Byte) : Uint32 b < 4294967296 := by
  unfold Uint32; omega

theorem bytes_length (f : Source) (off n : Nat) : (bytes f off n).length = n := by
  simp [bytes]

theorem ReadAt_ok' (f : Source) (len p : Nat) (h : p + len ≤ f.size) :
    ReadAt f len (p : Int) = .ok (bytes f p len) := by
  unfold ReadAt
  have h0 : ¬ ((p : Int) < 0) := by omega
  rw [if_neg h0]
  by_cases hl : len = 0
  · subst hl; simp [bytes]
  · rw [if_neg hl, Int.toNat_ofNat, if_pos h]

theorem ReadAt_eof (f : Source) (len p : Nat) (hl : 1 ≤ len) (h : f.size < p + len) :
    ReadAt f len (p : Int) = .error .eof := by
  unfold ReadAt
  have h0 : ¬ ((p : Int) < 0) := by omega
  have h1 : ¬ len = 0 := by omega
  have h2 : ¬ (p + len ≤ f.size) := by omega
  rw [if_neg h0, if_neg h1, Int.toNat_ofNat, if_neg h2]

/-- More fuel does not change what the resource loop returns. -/
theorem resourceLoop_mono (f : Source) (target : Int) (fuel : Nat) :
    ∀ (st : LoopState) (r : Ret), resourceLoop f target fuel st = some r →
      ∀ fuel', fuel ≤ fuel' → resourceLoop f target fuel' st = some r := by
  induction fuel with
  | zero => intro st r h; simp [resourceLoop] at h
  | succ n ih =>
    intro st r h fuel' hle
    obtain ⟨m, rfl⟩ : ∃ m, fuel' = m + 1 := ⟨fuel' - 1, by omega⟩
    unfold resourceLoop at h ⊢
    by_cases hc : st.cursor = target
    · simpa [hc] using h
    · simp only [hc, if_false] at h ⊢
      cases hb : resourceBody f st with
      | error e => simpa [hb] using h
      | ok st' =>
        simp only [hb] at h ⊢
        exact ih st' r h m (by omega)

theorem DecodeSrfFile_mono (f : Source) (fuel fuel' : Nat) (r : Ret)
    (h : DecodeSrfFile fuel f = some r) (hle : fuel ≤ fuel') : DecodeSrfFile fuel' f = some r := by
  unfold DecodeSrfFile at h ⊢
  cases hh : decodeHeader f with
  | error e => simpa [hh] using h
  | ok hl =>
    simp only [hh] at h ⊢
    exact resourceLoop_mono f _ fuel _ r h fuel' hle

/-- `DecodeSrfFile` returns at most one result. -/
theorem Returns_unique (f : Source) (r r' : Ret) (h : Returns f r) (h' : Returns f r') : r = r' := by
  obtain ⟨a, ha⟩ := h
  obtain ⟨b, hb⟩ := h'
  have h1 := DecodeSrfFile_mono f a (max a b) r ha (le_max_left a b)
  have h2 := DecodeSrfFile_mono f b (max a b) r' hb (le_max_right a b)
  rw [h1] at h2
  exact Option.some.inj h2

theorem decodeHeader_ok (f : Source) (h12 : 12 ≤ f.size) (hm : bytes f 0 4 = srf1)
    (hl : Uint32 (bytes f 4 4) = wrap32 f.size) : decodeHeader f = .ok (bytes f 8 4) := by
  unfold decodeHeader
  have r0 := ReadAt_ok' f 4 0 (by omega)
  have r4 := ReadAt_ok' f 4 4 (by omega)
  have r8 := ReadAt_ok' f 4 8 (by omega)
  simp only [Nat.cast_ofNat, Nat.cast_zero] at r0 r4 r8
  simp [r0, r4, r8, hm, hl]

/-- C9: a source of at least 12 bytes with magic `srf1`, a file length field
equal to its size and header length 0 decodes to an `SrfData` with no
resources, with a nil error, whatever bytes follow offset 0x0C. -/
theorem empty_directory_decodes (f : Source) (h12 : 12 ≤ f.size) (hm : bytes f 0 4 = srf1)
    (hl : be32At f 4 = f.size) (hh : be32At f 8 = 0) (fuel : Nat) :
    DecodeSrfFile (fuel + 1) f = some (⟨[]⟩, none) := by
  have hsmall : f.size < 4294967296 := by
    rw [← hl]; exact Uint32_lt _
  have hw : wrap32 f.size = f.size := by unfold wrap32; omega
  have hd := decodeHeader_ok f h12 hm (by rw [hw]; exact hl)
  unfold DecodeSrfFile
  rw [hd]
  have ht : loopTarget (bytes f 8 4) = 12 := by
    unfold loopTarget
    unfold be32At at hh
    rw [hh]; rfl
  simp [ht, resourceLoop, loopStart]

theorem empty_directory_decodes_witness :
    12 ≤ exMinimal.size ∧ DecodeSrfFile 1 exMinimal = some (⟨[]⟩, none) :=
  ⟨by decide, empty_directory_decodes exMinimal (by decide) (by decide) (by decide) (by decide) 0⟩

/-- C5: a source whose first four bytes are not `srf1`, or that has fewer than
four bytes, makes `DecodeSrfFile` fail with the zero `SrfData`, whatever the
rest of the source (file length field included) contains: with a read error of
the magic when the source is shorter than four bytes, and otherwise with the
invalid-magic error, whose message names the expected `srf1` and the four
bytes found. -/
theorem bad_magic_fails (f : Source) (h : ¬ (4 ≤ f.size ∧ bytes f 0 4 = srf1)) (fuel : Nat) :
    ∃ e : DecodeError, DecodeSrfFile fuel f = some (SrfData.empty, some e) ∧
      (f.size < 4 → e = .readMagic .eof) ∧
      (4 ≤ f.size → e = .invalidMagic (bytes f 0 4) ∧
        e.message = ascii "invalid magic: expected " ++ [0x22] ++ ascii "srf1" ++ [0x22] ++
          ascii ", got " ++ [0x22] ++ bytes f 0 4 ++ [0x22]) := by
  by_cases h4 : 4 ≤ f.size
  · have hm : bytes f 0 4 ≠ srf1 := fun hm => h ⟨h4, hm⟩
    have r0 := ReadAt_ok' f 4 0 (by omega)
    simp only [Nat.cast_zero] at r0
    refine ⟨.invalidMagic (bytes f 0 4), ?_, fun hlt => absurd h4 (by omega), fun _ => ⟨rfl, rfl⟩⟩
    simp [DecodeSrfFile, decodeHeader, r0, hm]
  · have r0 := ReadAt_eof f 4 0 (by omega) (by omega)
    simp only [Nat.cast_zero] at r0
    refine ⟨.readMagic .eof, ?_, fun _ => rfl, fun h4' => absurd h4' h4⟩
    simp [DecodeSrfFile, decodeHeader, r0]

theorem bad_magic_fails_witness :
    ¬ (4 ≤ exSrf2.size ∧ bytes exSrf2 0 4 = srf1) ∧
    ∃ e : DecodeError, DecodeSrfFile 1 exSrf2 = some (SrfData.empty, some e) ∧
      (exSrf2.size < 4 → e = .readMagic .eof) ∧
      (4 ≤ exSrf2.size → e = .invalidMagic (bytes exSrf2 0 4) ∧
        e.message = ascii "invalid magic: expected " ++ [0x22] ++ ascii "srf1" ++ [0x22] ++
          ascii ", got " ++ [0x22] ++ bytes exSrf2 0 4 ++ [0x22]) :=
  ⟨by decide, bad_magic_fails exSrf2 (by decide) 1⟩

/-- When the file length field differs from the size taken modulo 2^32, the
decoder fails with the file-size error carrying the declared value and the
true size. -/
theorem file_length_mismatch_fails (f : Source) (h8 : 8 ≤ f.size) (hm : bytes f 0 4 = srf1)
    (hl : be32At f 4 ≠ wrap32 f.size) (fuel : Nat) :
    DecodeSrfFile fuel f = some (SrfData.empty, some (.fileSizeIncorrect (be32At f 4) f.size)) := by
  have r0 := ReadAt_ok' f 4 0 (by omega)
  have r4 := ReadAt_ok' f 4 4 (by omega)
  simp only [Nat.cast_ofNat, Nat.cast_zero] at r0 r4
  unfold be32At at hl
  simp [DecodeSrfFile, decodeHeader, r0, r4, hm, hl, be32At]

/-- C4: on the file `exHuge` of 2^32 + 12 bytes the file length field is 12,
which is not the size, and yet `DecodeSrfFile` succeeds (with no resources):
the check compares the field with the size truncated to 32 bits. -/
theorem huge_file_length_mismatch_accepted :
    exHuge.size = 4294967308 ∧ bytes exHuge 0 4 = srf1 ∧ be32At exHuge 4 = 12 ∧
      DecodeSrfFile 1 exHuge = some (⟨[]⟩, none) := by
  refine ⟨by decide, by decide, by decide, by decide⟩

/-- An entry with item count 0 leaves the cursor where it is, so that the
resource loop never ends once it gets to one at a cursor other than the target. -/
theorem resourceLoop_stuck (f : Source) (target c : Int) (id nb : List Byte) (hne : c ≠ target)
    (hid : ReadAt f 4 c = .ok id) (hnb : ReadAt f 4 (addInt c 4) = .ok nb) (h0 : Uint32 nb = 0)
    (fuel : Nat) : ∀ d : SrfData, resourceLoop f target fuel ⟨c, d⟩ = none := by
  induction fuel with
  | zero => intro d; rfl
  | succ n ih =>
    intro d
    unfold resourceLoop
    simp only [hne, if_false]
    have hb : resourceBody f ⟨c, d⟩ = .ok ⟨c, ⟨mapSet d.Resources id ⟨id, []⟩⟩⟩ := by
      simp [resourceBody, hid, hnb, h0, itemLoop]
    rw [hb]
    exact ih _

/-- C2: on the 20-byte source `exZeroCount` (magic, file length 20, header
length 8, entry `TEX0` with item count 0) the first iteration of the resource
loop records `TEX0` with no items and leaves the cursor at 12, not at 20, and
`DecodeSrfFile` never returns. -/
theorem zero_item_count_never_returns :
    exZeroCount.size = 20 ∧
    resourceBody exZeroCount loopStart =
      .ok ⟨12, ⟨[(ascii "TEX0", ⟨ascii "TEX0", []⟩)]⟩⟩ ∧
    Diverges exZeroCount := by
  refine ⟨by decide, by decide, ?_⟩
  intro fuel
  have hd : decodeHeader exZeroCount = .ok (putU32 8) := by decide
  unfold DecodeSrfFile
  rw [hd]
  exact resourceLoop_stuck exZeroCount _ 12 (ascii "TEX0") (putU32 0) (by decide) (by decide)
    (by decide) (by decide) fuel _

/-- C3: on the 40-byte source `exOvershoot` the fixed header is valid, the
cursor goes from 12 to 32 in the first iteration and so steps over the target
16 without being equal to it, and `DecodeSrfFile` never returns: the entry at
32 has item count 0. -/
theorem overshoot_never_returns :
    decodeHeader exOvershoot = .ok (putU32 4) ∧ loopTarget (putU32 4) = 16 ∧
    (∃ st, walk exOvershoot 16 1 = some st ∧ st.cursor = 32) ∧
    Diverges exOvershoot := by
  have hd : decodeHeader exOvershoot = .ok (putU32 4) := by decide
  refine ⟨hd, by decide, ⟨⟨32, ⟨[(ascii "AAAA", ⟨ascii "AAAA", [(0, [])]⟩)]⟩⟩, by decide, rfl⟩, ?_⟩
  intro fuel
  unfold DecodeSrfFile
  rw [hd]
  cases fuel with
  | zero => rfl
  | succ n =>
    unfold resourceLoop
    have hb : resourceBody exOvershoot loopStart =
        .ok ⟨32, ⟨[(ascii "AAAA", ⟨ascii "AAAA", [(0, [])]⟩)]⟩⟩ := by decide
    have hc : ¬ (loopStart.cursor = loopTarget (putU32 4)) := by decide
    simp only [hc, if_false, hb]
    exact resourceLoop_stuck exOvershoot _ 32 (ascii "BBBB") (putU32 0) (by decide) (by decide)
      (by decide) (by decide) n _

theorem itemBody_error (f : Source) (n i : Nat) (st : ItemState) (r : Ret)
    (h : itemBody f n i st = .error r) : IsFailure r := by
  unfold itemBody at h
  split at h
  · cases h; exact ⟨rfl, by simp⟩
  · split at h
    · cases h; exact ⟨rfl, by simp⟩
    · split at h
      · cases h; exact ⟨rfl, by simp⟩
      · split at h
        · cases h; exact ⟨rfl, by simp⟩
        · simp only at h
          split at h <;> cases h

theorem itemLoop_error (f : Source) (n k : Nat) :
    ∀ (i : Nat) (st : ItemState) (r : Ret), itemLoop f n k i st = .error r → IsFailure r := by
  induction k with
  | zero => intro i st r h; simp [itemLoop] at h
  | succ k ih =>
    intro i st r h
    unfold itemLoop at h
    cases hb : itemBody f n i st with
    | error e =>
      rw [hb] at h
      cases h
      exact itemBody_error f n i st _ hb
    | ok st' =>
      rw [hb] at h
      exact ih _ _ _ h

theorem resourceBody_error (f : Source) (st : LoopState) (r : Ret)
    (h : resourceBody f st = .error r) : IsFailure r := by
  unfold resourceBody at h
  split at h
  · cases h; exact ⟨rfl, by simp⟩
  · split at h
    · cases h; exact ⟨rfl, by simp⟩
    · split at h
      · rename_i r' hl
        cases h
        exact itemLoop_error f _ _ _ _ _ hl
      · cases h

theorem decodeHeader_error (f : Source) (r : Ret) (h : decodeHeader f = .error r) :
    IsFailure r := by
  unfold decodeHeader at h
  split at h
  · cases h; exact ⟨rfl, by simp⟩
  · split at h
    · cases h; exact ⟨rfl, by simp⟩
    · split at h
      · cases h; exact ⟨rfl, by simp⟩
      · split at h
        · cases h; exact ⟨rfl, by simp⟩
        · split at h
          · cases h; exact ⟨rfl, by simp⟩
          · cases h

theorem resourceLoop_error (f : Source) (target : Int) (fuel : Nat) :
    ∀ (st : LoopState) (d : SrfData) (e : DecodeError),
      resourceLoop f target fuel st = some (d, some e) → d = SrfData.empty := by
  induction fuel with
  | zero => intro st d e h; simp [resourceLoop] at h
  | succ n ih =>
    intro st d e h
    unfold resourceLoop at h
    by_cases hc : st.cursor = target
    · simp [hc] at h
    · simp only [hc, if_false] at h
      cases hb : resourceBody f st with
      | error r =>
        rw [hb] at h
        have := resourceBody_error f st r hb
        cases h
        exact this.1
      | ok st' =>
        rw [hb] at h
        exact ih _ _ _ h

/-- C10: whenever `DecodeSrfFile` returns a non-nil error, the `SrfData`
returned with it is the zero value, with no resources, at every failure point,
also after resources have been decoded. -/
theorem error_returns_empty (fuel : Nat) (f : Source) (d : SrfData) (e : DecodeError)
    (h : DecodeSrfFile fuel f = some (d, some e)) : d = SrfData.empty ∧ d.Resources = [] := by
  have hd : d = SrfData.empty := by
    unfold DecodeSrfFile at h
    cases hh : decodeHeader f with
    | error r =>
      rw [hh] at h
      have := decodeHeader_error f r hh
      cases h
      exact this.1
    | ok hl =>
      rw [hh] at h
      exact resourceLoop_error f _ fuel _ d e h
  exact ⟨hd, by rw [hd]; rfl⟩

theorem error_returns_empty_witness :
    (∃ st, walk exLateFailure 52 1 = some st ∧ st.data.Resources ≠ []) ∧
    DecodeSrfFile 3 exLateFailure = some (SrfData.empty, some (.readItem .eof)) ∧
    SrfData.empty = SrfData.empty ∧ SrfData.empty.Resources = [] :=
  ⟨⟨⟨32, ⟨[(ascii "AAAA", ⟨ascii "AAAA", [(0, ascii "srf1")]⟩)]⟩⟩, by decide, by decide⟩, by decide,
    error_returns_empty 3 exLateFailure SrfData.empty (.readItem .eof) (by decide)⟩

section MapLemmas

variable {K V : Type} [DecidableEq K]

theorem mapGet_mapSet (m : List (K × V)) (k k' : K) (v : V) :
    mapGet (mapSet m k v) k' = if k = k' then some v else mapGet m k' := by
  induction m with
  | nil => simp [mapSet, mapGet]
  | cons a m ih =>
    obtain ⟨a, b⟩ := a
    unfold mapSet
    by_cases hak : a = k
    · subst hak
      simp only [if_true, mapGet]
      split <;> rfl
    · simp only [hak, if_false, mapGet, ih]
      by_cases hk : k = k'
      · subst hk; simp [hak]
      · simp [hk]

theorem mapKeys_mapSet (m : List (K × V)) (k : K) (v : V) :
    mapKeys (mapSet m k v) = if k ∈ mapKeys m then mapKeys m else mapKeys m ++ [k] := by
  induction m with
  | nil => simp [mapSet, mapKeys]
  | cons a m ih =>
    obtain ⟨a, b⟩ := a
    unfold mapSet
    by_cases hak : a = k
    · subst hak
      simp [mapKeys]
    · have hka : ¬ k = a := fun h => hak h.symm
      unfold mapKeys at ih ⊢
      simp only [hak, if_false, List.map_cons, ih, List.mem_cons, hka, false_or]
      split <;> simp

theorem mem_mapKeys_mapSet (m : List (K × V)) (k k' : K) (v : V) :
    k' ∈ mapKeys (mapSet m k v) ↔ k' = k ∨ k' ∈ mapKeys m := by
  rw [mapKeys_mapSet]
  split
  · constructor
    · exact fun h => Or.inr h
    · rintro (h | h)
      · subst h; assumption
      · exact h
  · simp [or_comm]

theorem nodup_mapKeys_mapSet (m : List (K × V)) (k : K) (v : V) (h : (mapKeys m).Nodup) :
    (mapKeys (mapSet m k v)).Nodup := by
  rw [mapKeys_mapSet]
  split
  · exact h
  · rename_i hk
    rw [List.nodup_append]
    refine ⟨h, List.nodup_singleton k, ?_⟩
    intro a ha hb
    simp only [List.mem_singleton] at hb
    subst hb
    exact hk ha

variable {α : Type}

theorem mapGet_foldl (key : α → K) (val : α → V) (l : List α) :
    ∀ (m : List (K × V)) (k : K),
      mapGet (l.foldl (fun m a => mapSet m (key a) (val a)) m) k =
        match l.reverse.find? (fun a => decide (key a = k)) with
        | some a => some (val a)
        | none => mapGet m k := by
  induction l with
  | nil => intro m k; rfl
  | cons a l ih =>
    intro m k
    rw [List.foldl_cons, ih, List.reverse_cons, List.find?_append]
    cases hf : l.reverse.find? (fun a => decide (key a = k)) with
    | some b => rfl
    | none =>
      simp only [Option.none_or, List.find?_cons, List.find?_nil, mapGet_mapSet]
      by_cases hk : key a = k
      · simp [hk]
      · simp [hk]

theorem mem_mapKeys_foldl (key : α → K) (val : α → V) (l : List α) :
    ∀ (m : List (K × V)) (k : K),
      k ∈ mapKeys (l.foldl (fun m a => mapSet m (key a) (val a)) m) ↔
        k ∈ mapKeys m ∨ ∃ a ∈ l, key a = k := by
  induction l with
  | nil => intro m k; simp
  | cons a l ih =>
    intro m k
    rw [List.foldl_cons, ih, mem_mapKeys_mapSet]
    constructor
    · rintro ((h | h) | ⟨b, hb, h⟩)
      · exact Or.inr ⟨a, List.mem_cons_self _ _, h.symm⟩
      · exact Or.inl h
      · exact Or.inr ⟨b, List.mem_cons_of_mem _ hb, h⟩
    · rintro (h | ⟨b, hb, h⟩)
      · exact Or.inl (Or.inr h)
      · rcases List.mem_cons.mp hb with rfl | hb
        · exact Or.inl (Or.inl h.symm)
        · exact Or.inr ⟨b, hb, h⟩

theorem nodup_mapKeys_foldl (key : α → K) (val : α → V) (l : List α) :
    ∀ (m : List (K × V)), (mapKeys m).Nodup →
      (mapKeys (l.foldl (fun m a => mapSet m (key a) (val a)) m)).Nodup := by
  induction l with
  | nil => intro m h; exact h
  | cons a l ih =>
    intro m h
    rw [List.foldl_cons]
    exact ih _ (nodup_mapKeys_mapSet m _ _ h)

end MapLemmas

theorem addInt_small (a b : Int) (h0 : -9223372036854775808 ≤ a + b)
    (h1 : a + b < 9223372036854775808) : addInt a b = a + b :=
  wrap64_small _ h0 h1

theorem wrap32_small (x : Nat) (h : x < 4294967296) : wrap32 x = x :=
  Nat.mod_eq_of_lt h

theorem recordOffset (c i d : Nat) (hd : d ≤ 16) (h : c + 16 + 12 * i < 4294967296) :
    addInt (addInt (c : Int) (d : Int)) (Int.ofNat (wrap32 (i * 12))) = ((c + d + 12 * i : Nat) : Int) := by
  have h1 : addInt (c : Int) (d : Int) = (c : Int) + (d : Int) :=
    addInt_small _ _ (by omega) (by omega)
  rw [wrap32_small _ (by omega), h1]
  simp only [Int.ofNat_eq_coe]
  rw [addInt_small _ _ (by omega) (by omega)]
  omega

theorem cursorAdvance (c n : Nat) (h : c + 8 + 12 * n < 4294967296) :
    addInt (c : Int) (addInt 8 (mulInt (Int.ofNat n) 12)) = ((c + 8 + 12 * n : Nat) : Int) := by
  simp only [Int.ofNat_eq_coe]
  have h1 : mulInt (n : Int) 12 = (n : Int) * 12 := wrap64_small _ (by omega) (by omega)
  have h2 : addInt 8 ((n : Int) * 12) = 8 + (n : Int) * 12 :=
    addInt_small _ _ (by omega) (by omega)
  rw [h1, h2, addInt_small _ _ (by omega) (by omega)]
  omega

theorem itemBody_of_reads (f : Source) (n i : Nat) (st : ItemState) (num off size data : List Byte)
    (h1 : ReadAt f 4 (addInt (addInt st.cursor 8) (Int.ofNat (wrap32 (i * 12)))) = .ok num)
    (h2 : ReadAt f 4 (addInt (addInt st.cursor 12) (Int.ofNat (wrap32 (i * 12)))) = .ok off)
    (h3 : ReadAt f 4 (addInt (addInt st.cursor 16) (Int.ofNat (wrap32 (i * 12)))) = .ok size)
    (h4 : ReadAt f (Uint32 size) (Int.ofNat (Uint32 off)) = .ok data) :
    itemBody f n i st =
      .ok (if wrap32 (i + 1) = n then
          ⟨addInt st.cursor (addInt 8 (mulInt (Int.ofNat n) 12)),
            mapSet st.items (Int.ofNat (Uint32 num)) data⟩
        else ⟨st.cursor, mapSet st.items (Int.ofNat (Uint32 num)) data⟩) := by
  unfold itemBody
  rw [h1]
  dsimp only
  rw [h2]
  dsimp only
  rw [h3]
  dsimp only
  rw [h4]
  dsimp only
  split <;> rfl
theorem itemBody_spec (f : Source) (c n i : Nat) (items : List (Int × List Byte)) (r : Record)
    (hsmall : f.size < 4294967296) (hsz : c + 8 + 12 * n ≤ f.size) (hi : i < n)
    (hnum : be32At f (c + 8 + 12 * i) = r.num) (hoff : be32At f (c + 12 + 12 * i) = r.off)
    (hsize : be32At f (c + 16 + 12 * i) = r.size) (hp : r.off + r.size ≤ f.size) :
    itemBody f n i ⟨(c : Int), items⟩ =
      .ok ⟨if i + 1 = n then ((c + 8 + 12 * n : Nat) : Int) else (c : Int),
        mapSet items (r.num : Int) (payload f r)⟩ := by
  have hb : c + 16 + 12 * i < 4294967296 := by omega
  have h8 : c + 8 + 12 * i + 4 ≤ f.size := by omega
  have h12 : c + 12 + 12 * i + 4 ≤ f.size := by omega
  have h16 : c + 16 + 12 * i + 4 ≤ f.size := by omega
  have hi1 : i + 1 < 4294967296 := by omega
  have hn : c + 8 + 12 * n < 4294967296 := by omega
  have a8 := recordOffset c i 8 (by decide) hb
  have a12 := recordOffset c i 12 (by decide) hb
  have a16 := recordOffset c i 16 (by decide) hb
  simp only [Nat.cast_ofNat] at a8 a12 a16
  have r8 := (congrArg (ReadAt f 4) a8).trans (ReadAt_ok' f 4 (c + 8 + 12 * i) h8)
  have r12 := (congrArg (ReadAt f 4) a12).trans (ReadAt_ok' f 4 (c + 12 + 12 * i) h12)
  have r16 := (congrArg (ReadAt f 4) a16).trans (ReadAt_ok' f 4 (c + 16 + 12 * i) h16)
  unfold be32At at hnum hoff hsize
  have rp : ReadAt f (Uint32 (bytes f (c + 16 + 12 * i) 4))
      (Int.ofNat (Uint32 (bytes f (c + 12 + 12 * i) 4))) = .ok (payload f r) := by
    rw [hoff, hsize]
    exact ReadAt_ok' f r.size r.off hp
  have hw : wrap32 (i + 1) = i + 1 := wrap32_small _ hi1
  have hadv := cursorAdvance c n hn
  have hbody := itemBody_of_reads f n i ⟨(c : Int), items⟩ _ _ _ _ r8 r12 r16 rp
  rw [hbody, hnum, hw]
  split
  · dsimp only
    rw [hadv]
    rfl
  · rfl

theorem itemLoop_spec (f : Source) (c : Nat) (recs : List Record)
    (hsmall : f.size < 4294967296) (hsz : c + 8 + 12 * recs.length ≤ f.size)
    (hrec : ∀ (i : Nat) (h : i < recs.length),
      be32At f (c + 8 + 12 * i) = (recs[i]).num ∧ be32At f (c + 12 + 12 * i) = (recs[i]).off ∧
      be32At f (c + 16 + 12 * i) = (recs[i]).size)
    (hp : ∀ r ∈ recs, r.off + r.size ≤ f.size) (k : Nat) :
    ∀ (i : Nat) (items : List (Int × List Byte)), i + (k + 1) = recs.length →
      itemLoop f recs.length (k + 1) i ⟨(c : Int), items⟩ =
        .ok ⟨((c + 8 + 12 * recs.length : Nat) : Int), itemsFrom f items (recs.drop i)⟩ := by
  induction k with
  | zero =>
    intro i items hik
    have hi : i < recs.length := by omega
    have hlast : i + 1 = recs.length := by omega
    obtain ⟨h1, h2, h3⟩ := hrec i hi
    have hb := itemBody_spec f c recs.length i items recs[i] hsmall hsz hi h1 h2 h3
      (hp _ (List.getElem_mem _))
    have hd : recs.drop i = [recs[i]] := by
      rw [List.drop_eq_getElem_cons hi, List.drop_of_length_le (by omega)]
    rw [itemLoop, hb, if_pos hlast, hd]
    dsimp only
    rw [itemLoop, itemsFrom, List.foldl_cons, List.foldl_nil]
  | succ k ih =>
    intro i items hik
    have hi : i < recs.length := by omega
    have hne : ¬ (i + 1 = recs.length) := by omega
    have hnext : i + 1 + (k + 1) = recs.length := by omega
    obtain ⟨h1, h2, h3⟩ := hrec i hi
    have hb := itemBody_spec f c recs.length i items recs[i] hsmall hsz hi h1 h2 h3
      (hp _ (List.getElem_mem _))
    rw [itemLoop, hb, if_neg hne]
    dsimp only
    rw [ih (i + 1) _ hnext, List.drop_eq_getElem_cons hi, itemsFrom, itemsFrom, List.foldl_cons]

theorem resourceBody_of_reads (f : Source) (st : LoopState) (id nb : List Byte) (ist : ItemState)
    (h1 : ReadAt f 4 st.cursor = .ok id) (h2 : ReadAt f 4 (addInt st.cursor 4) = .ok nb)
    (h3 : itemLoop f (Uint32 nb) (Uint32 nb) 0 ⟨st.cursor, []⟩ = .ok ist) :
    resourceBody f st = .ok ⟨ist.cursor, ⟨mapSet st.data.Resources id ⟨id, ist.items⟩⟩⟩ := by
  unfold resourceBody
  rw [h1]
  dsimp only
  rw [h2]
  dsimp only
  rw [h3]


theorem resourceBody_spec (f : Source) (c : Nat) (e : Entry) (d : SrfData)
    (hsmall : f.size < 4294967296) (hsz : c + e.size ≤ f.size) (he : EntryAt f c e)
    (hp : ∀ r ∈ e.recs, r.off + r.size ≤ f.size) :
    resourceBody f ⟨(c : Int), d⟩ =
      .ok ⟨((c + e.size : Nat) : Int), ⟨mapSet d.Resources e.id (entryResource f e)⟩⟩ := by
  obtain ⟨hid, hn, h1, hrec⟩ := he
  unfold Entry.size at hsz ⊢
  have hsz2 : c + 8 + 12 * e.recs.length ≤ f.size := by omega
  have hc4 : c + 4 ≤ f.size := by omega
  have hc8 : c + 4 + 4 ≤ f.size := by omega
  have hlo : -9223372036854775808 ≤ (c : Int) + 4 := by omega
  have hhi : (c : Int) + 4 < 9223372036854775808 := by omega
  obtain ⟨k, hk⟩ : ∃ k, e.recs.length = k + 1 := ⟨e.recs.length - 1, by omega⟩
  have hk0 : 0 + (k + 1) = e.recs.length := by omega
  have rid := ReadAt_ok' f 4 c hc4
  have a4 : addInt (c : Int) 4 = ((c + 4 : Nat) : Int) :=
    (addInt_small _ _ hlo hhi).trans (Nat.cast_add c 4).symm
  have rn := (congrArg (ReadAt f 4) a4).trans (ReadAt_ok' f 4 (c + 4) hc8)
  unfold be32At at hn
  have hl := itemLoop_spec f c e.recs hsmall hsz2 hrec hp k 0 [] hk0
  rw [← hk, List.drop_zero] at hl
  rw [← hn] at hl
  have hb := resourceBody_of_reads f ⟨(c : Int), d⟩ _ _ _ rid rn hl
  rw [hb, hid]
  dsimp only [entryResource]
  rw [hn, Nat.add_assoc]

theorem dirSize_cons (e : Entry) (es : List Entry) : dirSize (e :: es) = e.size + dirSize es := by
  unfold dirSize
  rw [List.map_cons, List.sum_cons]

theorem resourceLoop_spec (f : Source) (T : Nat) (hsmall : f.size < 4294967296) (hT : T ≤ f.size)
    (dir : List Entry) :
    ∀ (c : Nat) (d : SrfData) (fuel : Nat), DirAt f c dir → c + dirSize dir = T →
      (∀ e ∈ dir, ∀ r ∈ e.recs, r.off + r.size ≤ f.size) → dir.length < fuel →
      resourceLoop f (T : Int) fuel ⟨(c : Int), d⟩ =
        some (⟨resourcesFrom f d.Resources dir⟩, none) := by
  induction dir with
  | nil =>
    intro c d fuel _ hc _ hfuel
    rw [List.length_nil] at hfuel
    obtain ⟨m, rfl⟩ : ∃ m, fuel = m + 1 := ⟨fuel - 1, by omega⟩
    have hcT : c = T := by
      unfold dirSize at hc
      rw [List.map_nil, List.sum_nil] at hc
      omega
    subst hcT
    rw [resourceLoop, if_pos rfl]
    rfl
  | cons e es ih =>
    intro c d fuel hdir hc hp hfuel
    rw [List.length_cons] at hfuel
    obtain ⟨m, rfl⟩ : ∃ m, fuel = m + 1 := ⟨fuel - 1, by omega⟩
    obtain ⟨he, hes⟩ := hdir
    rw [dirSize_cons] at hc
    have h1 : 1 ≤ e.recs.length := he.2.2.1
    have hsz : 20 ≤ e.size := by unfold Entry.size; omega
    have hne : ¬ ((c : Int) = (T : Int)) := by omega
    have hle : c + e.size ≤ f.size := by omega
    have hnext : c + e.size + dirSize es = T := by omega
    have hm : es.length < m := by omega
    have hb := resourceBody_spec f c e d hsmall hle he (hp e (List.mem_cons_self _ _))
    rw [resourceLoop]
    dsimp only
    rw [if_neg hne, hb]
    dsimp only
    rw [ih (c + e.size) _ m hes hnext (fun e' he' => hp e' (List.mem_cons_of_mem _ he')) hm]
    dsimp only [resourcesFrom]
    rw [List.foldl_cons]

/-- On a well-formed source the decoder returns the resources built from the
directory, entry by entry. -/
theorem DecodeSrfFile_wellFormed (f : Source) (dir : List Entry) (h : WellFormed f dir)
    (fuel : Nat) (hfuel : dir.length < fuel) :
    DecodeSrfFile fuel f = some (⟨resourcesFrom f [] dir⟩, none) := by
  have hs := h.small
  have hin := h.inside
  have h12 : 12 ≤ f.size := by omega
  have hw : wrap32 f.size = f.size := wrap32_small _ hs
  have hd := decodeHeader_ok f h12 h.magic (by rw [hw]; exact h.fileLength)
  have h1 := h.headerLength
  unfold be32At at h1
  have hlo : -9223372036854775808 ≤ (12 : Int) + ((dirSize dir : Nat) : Int) := by omega
  have hhi : (12 : Int) + ((dirSize dir : Nat) : Int) < 9223372036854775808 := by omega
  have ht : loopTarget (bytes f 8 4) = ((12 + dirSize dir : Nat) : Int) := by
    unfold loopTarget
    rw [h1, Int.ofNat_eq_coe, addInt_small _ _ hlo hhi, Nat.cast_add]
    rfl
  have hloop := resourceLoop_spec f (12 + dirSize dir) hs hin dir 12 ⟨[]⟩ fuel h.directory rfl
    h.payloads hfuel
  rw [DecodeSrfFile, hd]
  dsimp only
  rw [ht]
  exact hloop

theorem resources_lookup (f : Source) (dir : List Entry) (id : List Byte) :
    mapGet (resourcesFrom f [] dir) id = (lastEntry dir id).map (entryResource f) := by
  have h := mapGet_foldl (fun e : Entry => e.id) (entryResource f) dir [] id
  unfold resourcesFrom lastEntry
  rw [h]
  cases dir.reverse.find? (fun a => decide (a.id = id)) <;> rfl

theorem items_lookup (f : Source) (e : Entry) (num : Int) :
    mapGet (entryResource f e).Items num = (lastRecord e num).map (payload f) := by
  have h := mapGet_foldl (fun r : Record => (r.num : Int)) (payload f) e.recs [] num
  unfold entryResource itemsFrom lastRecord
  dsimp only
  rw [h]
  cases e.recs.reverse.find? (fun a => decide ((a.num : Int) = num)) <;> rfl

theorem resources_keys (f : Source) (dir : List Entry) (id : List Byte) :
    id ∈ mapKeys (resourcesFrom f [] dir) ↔ ∃ e ∈ dir, e.id = id := by
  have h := mem_mapKeys_foldl (fun e : Entry => e.id) (entryResource f) dir [] id
  unfold resourcesFrom
  rw [h]
  constructor
  · rintro (h0 | h1)
    · cases h0
    · exact h1
  · exact fun h1 => Or.inr h1

theorem resources_nodup (f : Source) (dir : List Entry) :
    (mapKeys (resourcesFrom f [] dir)).Nodup :=
  nodup_mapKeys_foldl (fun e : Entry => e.id) (entryResource f) dir [] List.nodup_nil

theorem items_keys (f : Source) (e : Entry) (num : Int) :
    num ∈ mapKeys (entryResource f e).Items ↔ ∃ r ∈ e.recs, (r.num : Int) = num := by
  have h := mem_mapKeys_foldl (fun r : Record => (r.num : Int)) (payload f) e.recs [] num
  unfold entryResource itemsFrom
  dsimp only
  rw [h]
  constructor
  · rintro (h0 | h1)
    · cases h0
    · exact h1
  · exact fun h1 => Or.inr h1

theorem items_nodup (f : Source) (e : Entry) : (mapKeys (entryResource f e).Items).Nodup :=
  nodup_mapKeys_foldl (fun r : Record => (r.num : Int)) (payload f) e.recs [] List.nodup_nil

theorem items_length (f : Source) (e : Entry) :
    (entryResource f e).Items.length = ((e.recs.map fun r => (r.num : Int)).dedup).length := by
  have hperm : (mapKeys (entryResource f e).Items).Perm ((e.recs.map fun r => (r.num : Int)).dedup) := by
    rw [List.perm_ext_iff_of_nodup (items_nodup f e) (List.nodup_dedup _)]
    intro num
    rw [items_keys, List.mem_dedup, List.mem_map]
  have hlen := hperm.length_eq
  unfold mapKeys at hlen
  rw [List.length_map] at hlen
  exact hlen

theorem lastEntry_id (dir : List Entry) (id : List Byte) (e : Entry)
    (h : lastEntry dir id = some e) : e.id = id := by
  unfold lastEntry at h
  have := List.find?_some h
  exact of_decide_eq_true this

theorem lastEntry_append (pre post : List Entry) (e : Entry) (hlast : ∀ x ∈ post, x.id ≠ e.id) :
    lastEntry (pre ++ e :: post) e.id = some e := by
  unfold lastEntry
  have hnone : post.reverse.find? (fun x => decide (x.id = e.id)) = none := by
    rw [List.find?_eq_none]
    intro x hx
    have := hlast x (List.mem_reverse.mp hx)
    simpa using this
  rw [List.reverse_append, List.reverse_cons, List.append_assoc, List.find?_append, hnone]
  simp

theorem lastRecord_append (e : Entry) (pre post : List Record) (b : Record)
    (hrecs : e.recs = pre ++ b :: post) (hlast : ∀ r ∈ post, r.num ≠ b.num) :
    lastRecord e (b.num : Int) = some b := by
  unfold lastRecord
  have hnone : post.reverse.find? (fun x => decide ((x.num : Int) = (b.num : Int))) = none := by
    rw [List.find?_eq_none]
    intro x hx
    have := hlast x (List.mem_reverse.mp hx)
    simpa using this
  rw [hrecs, List.reverse_append, List.reverse_cons, List.append_assoc, List.find?_append, hnone]
  simp

theorem lastRecord_none (e : Entry) (num : Int) (h : ∀ r ∈ e.recs, (r.num : Int) ≠ num) :
    lastRecord e num = none := by
  unfold lastRecord
  rw [List.find?_eq_none]
  intro x hx
  have := h x (List.mem_reverse.mp hx)
  simpa using this


/-- C1: on a well-formed source (smaller than 2^32 bytes, magic `srf1`, file
length equal to the size, directory at 0x0C made of back-to-back entries with
at least one record each, lying inside the source and of total size
header_length, every payload range inside the source) `DecodeSrfFile` returns,
for every fuel above the number of entries, a nil error and a mapping whose
keys are exactly the identifiers of the directory (each once), in which the
resource under an identifier has that identifier as `Id` and is built from the
last entry with that identifier: its `Items` has each item number once and maps
an item number to the payload bytes of the last record of that entry with that
number, and to nothing when the entry has no such record. -/
theorem wellformed_decodes (f : Source) (dir : List Entry) (h : WellFormed f dir) :
    ∃ d : SrfData,
      (∀ fuel, dir.length < fuel → DecodeSrfFile fuel f = some (d, none)) ∧
      (mapKeys d.Resources).Nodup ∧
      (∀ id, id ∈ mapKeys d.Resources ↔ ∃ e ∈ dir, e.id = id) ∧
      (∀ id, lastEntry dir id = none → mapGet d.Resources id = none) ∧
      ∀ id e, lastEntry dir id = some e →
        ∃ r, mapGet d.Resources id = some r ∧ r.Id = id ∧ (mapKeys r.Items).Nodup ∧
          ∀ num, mapGet r.Items num = (lastRecord e num).map (payload f) := by
  refine ⟨⟨resourcesFrom f [] dir⟩, fun fuel hfuel => DecodeSrfFile_wellFormed f dir h fuel hfuel,
    resources_nodup f dir, resources_keys f dir, ?_, ?_⟩
  · intro id hnone
    show mapGet (resourcesFrom f [] dir) id = none
    rw [resources_lookup, hnone]
    rfl
  · intro id e he
    refine ⟨entryResource f e, ?_, lastEntry_id dir id e he, items_nodup f e, items_lookup f e⟩
    show mapGet (resourcesFrom f [] dir) id = some (entryResource f e)
    rw [resources_lookup, he]
    rfl

/-- C7: on a well-formed source whose directory has an entry `e1` and, later, an
entry `e2` with the same identifier (no entry after `e2` has it), the resource
stored under that identifier has exactly the items of `e2`: every item number
maps to the payload of the last record of `e2` with that number, and an item
number that `e2` does not list is absent, also when `e1` lists it. -/
theorem same_identifier_replaces (f : Source) (pre mid post : List Entry) (e1 e2 : Entry)
    (h : WellFormed f (pre ++ e1 :: (mid ++ e2 :: post))) (hid : e1.id = e2.id)
    (hlast : ∀ e ∈ post, e.id ≠ e2.id) :
    ∃ (d : SrfData) (r : SrfResource),
      (∀ fuel, (pre ++ e1 :: (mid ++ e2 :: post)).length < fuel →
        DecodeSrfFile fuel f = some (d, none)) ∧
      mapGet d.Resources e1.id = some r ∧
      (∀ num, mapGet r.Items num = (lastRecord e2 num).map (payload f)) ∧
      ∀ num, (∀ rec ∈ e2.recs, (rec.num : Int) ≠ num) → mapGet r.Items num = none := by
  have hl : lastEntry (pre ++ e1 :: (mid ++ e2 :: post)) e2.id = some e2 := by
    have := lastEntry_append (pre ++ e1 :: mid) post e2 hlast
    rw [List.append_assoc, List.cons_append] at this
    exact this
  refine ⟨⟨resourcesFrom f [] (pre ++ e1 :: (mid ++ e2 :: post))⟩, entryResource f e2,
    fun fuel hfuel => DecodeSrfFile_wellFormed f _ h fuel hfuel, ?_, items_lookup f e2, ?_⟩
  · show mapGet (resourcesFrom f [] (pre ++ e1 :: (mid ++ e2 :: post))) e1.id = _
    rw [hid, resources_lookup, hl]
    rfl
  · intro num hnum
    rw [items_lookup, lastRecord_none e2 num hnum]
    rfl

/-- C8: on a well-formed source, when the entry that is the last with its
identifier lists the same item number in a record `a` and in a later record `b`
(no record after `b` has that number), the resource stored under the identifier
maps that number to the payload of `b`, and it has one item per distinct item
number of the entry. -/
theorem same_item_number_last_wins (f : Source) (dir : List Entry) (h : WellFormed f dir)
    (e : Entry) (he : lastEntry dir e.id = some e) (r1 r2 r3 : List Record) (a b : Record)
    (hrecs : e.recs = r1 ++ a :: (r2 ++ b :: r3)) (hab : a.num = b.num)
    (hlast : ∀ r ∈ r3, r.num ≠ b.num) :
    ∃ (d : SrfData) (res : SrfResource),
      (∀ fuel, dir.length < fuel → DecodeSrfFile fuel f = some (d, none)) ∧
      mapGet d.Resources e.id = some res ∧
      mapGet res.Items (a.num : Int) = some (bytes f b.off b.size) ∧
      (mapKeys res.Items).Nodup ∧
      (∀ num, num ∈ mapKeys res.Items ↔ ∃ r ∈ e.recs, (r.num : Int) = num) ∧
      res.Items.length = ((e.recs.map fun r => (r.num : Int)).dedup).length := by
  have hl : lastRecord e (b.num : Int) = some b := by
    apply lastRecord_append e (r1 ++ a :: r2) r3 b _ hlast
    rw [hrecs, List.append_assoc, List.cons_append]
  refine ⟨⟨resourcesFrom f [] dir⟩, entryResource f e,
    fun fuel hfuel => DecodeSrfFile_wellFormed f dir h fuel hfuel, ?_, ?_, items_nodup f e,
    items_keys f e, items_length f e⟩
  · show mapGet (resourcesFrom f [] dir) e.id = _
    rw [resources_lookup, he]
    rfl
  · rw [hab, items_lookup, hl]
    rfl

theorem wellformed_decodes_witness :
    WellFormed exTex0 exTex0Dir ∧
    ∃ d : SrfData,
      (∀ fuel, exTex0Dir.length < fuel → DecodeSrfFile fuel exTex0 = some (d, none)) ∧
      (mapKeys d.Resources).Nodup ∧
      (∀ id, id ∈ mapKeys d.Resources ↔ ∃ e ∈ exTex0Dir, e.id = id) ∧
      (∀ id, lastEntry exTex0Dir id = none → mapGet d.Resources id = none) ∧
      ∀ id e, lastEntry exTex0Dir id = some e →
        ∃ r, mapGet d.Resources id = some r ∧ r.Id = id ∧ (mapKeys r.Items).Nodup ∧
          ∀ num, mapGet r.Items num = (lastRecord e num).map (payload exTex0) :=
  have wf : WellFormed exTex0 exTex0Dir :=
    ⟨by decide, by decide, by decide, by decide, by decide,
      ⟨⟨by decide, by decide, by decide, by decide⟩, trivial⟩, by decide⟩
  ⟨wf, wellformed_decodes exTex0 exTex0Dir wf⟩

theorem same_identifier_replaces_witness :
    WellFormed exSameId exSameIdDir ∧
    ∃ (d : SrfData) (r : SrfResource),
      (∀ fuel, exSameIdDir.length < fuel → DecodeSrfFile fuel exSameId = some (d, none)) ∧
      mapGet d.Resources (ascii "TEX0") = some r ∧
      (∀ num, mapGet r.Items num =
        (lastRecord ⟨ascii "TEX0", [⟨5, 68, 2⟩]⟩ num).map (payload exSameId)) ∧
      ∀ num, (∀ rec ∈ [(⟨5, 68, 2⟩ : Record)], (rec.num : Int) ≠ num) →
        mapGet r.Items num = none :=
  have wf : WellFormed exSameId exSameIdDir :=
    ⟨by decide, by decide, by decide, by decide, by decide,
      ⟨⟨by decide, by decide, by decide, by decide⟩,
        ⟨by decide, by decide, by decide, by decide⟩, trivial⟩, by decide⟩
  ⟨wf, same_identifier_replaces exSameId [] [] [] ⟨ascii "TEX0", [⟨0, 64, 2⟩, ⟨1, 66, 2⟩]⟩
    ⟨ascii "TEX0", [⟨5, 68, 2⟩]⟩ wf rfl (by decide)⟩

theorem same_item_number_last_wins_witness :
    WellFormed exSameItem exSameItemDir ∧
    ∃ (d : SrfData) (res : SrfResource),
      (∀ fuel, exSameItemDir.length < fuel → DecodeSrfFile fuel exSameItem = some (d, none)) ∧
      mapGet d.Resources (ascii "TEX0") = some res ∧
      mapGet res.Items 7 = some (bytes exSameItem 58 2) ∧
      (mapKeys res.Items).Nodup ∧
      (∀ num, num ∈ mapKeys res.Items ↔
        ∃ r ∈ [(⟨7, 56, 2⟩ : Record), ⟨7, 58, 2⟩, ⟨9, 60, 2⟩], (r.num : Int) = num) ∧
      res.Items.length = (([(⟨7, 56, 2⟩ : Record), ⟨7, 58, 2⟩, ⟨9, 60, 2⟩].map
        fun r => (r.num : Int)).dedup).length :=
  have wf : WellFormed exSameItem exSameItemDir :=
    ⟨by decide, by decide, by decide, by decide, by decide,
      ⟨⟨by decide, by decide, by decide, by decide⟩, trivial⟩, by decide⟩
  ⟨wf, same_item_number_last_wins exSameItem exSameItemDir wf
    ⟨ascii "TEX0", [⟨7, 56, 2⟩, ⟨7, 58, 2⟩, ⟨9, 60, 2⟩]⟩ (by decide) [] [] [⟨9, 60, 2⟩]
    ⟨7, 56, 2⟩ ⟨7, 58, 2⟩ rfl rfl (by decide)⟩

theorem walk_resourceLoop (f : Source) (target : Int) (k : Nat) :
    ∀ (st : LoopState), walk f target k = some st →
      ∀ fuel, resourceLoop f target (k + fuel) loopStart = resourceLoop f target fuel st := by
  induction k with
  | zero =>
    intro st h fuel
    rw [walk] at h
    cases h
    rw [Nat.zero_add]
  | succ k ih =>
    intro st' h fuel
    rw [walk] at h
    cases hw : walk f target k with
    | none => rw [hw] at h; cases h
    | some st =>
      rw [hw] at h
      dsimp only at h
      by_cases hc : st.cursor = target
      · rw [if_pos hc] at h; cases h
      · rw [if_neg hc] at h
        cases hb : resourceBody f st with
        | error e => rw [hb] at h; cases h
        | ok st2 =>
          rw [hb] at h
          cases h
          have h1 := ih st hw (fuel + 1)
          rw [Nat.add_right_comm, ← Nat.add_assoc] at *
          rw [h1, resourceLoop, if_neg hc, hb]

theorem itemWalk_itemLoop (f : Source) (n : Nat) (c : Int) (i : Nat) :
    ∀ (ist : ItemState), itemWalk f n c i = some ist →
      ∀ k, itemLoop f n (i + k) 0 ⟨c, []⟩ = itemLoop f n k i ist := by
  induction i with
  | zero =>
    intro ist h k
    rw [itemWalk] at h
    cases h
    rw [Nat.zero_add]
  | succ i ih =>
    intro ist' h k
    rw [itemWalk] at h
    cases hw : itemWalk f n c i with
    | none => rw [hw] at h; cases h
    | some ist =>
      rw [hw] at h
      dsimp only at h
      cases hb : itemBody f n i ist with
      | error e => rw [hb] at h; cases h
      | ok ist2 =>
        rw [hb] at h
        cases h
        have h1 := ih ist hw (k + 1)
        rw [Nat.add_right_comm, ← Nat.add_assoc] at *
        rw [h1, itemLoop, hb]

theorem readRecord_some (f : Source) (cursor : Int) (i : Nat) (r : Record)
    (h : readRecord f cursor i = some r) :
    ∃ a b c : List Byte,
      ReadAt f 4 (addInt (addInt cursor 8) (Int.ofNat (wrap32 (i * 12)))) = .ok a ∧
      ReadAt f 4 (addInt (addInt cursor 12) (Int.ofNat (wrap32 (i * 12)))) = .ok b ∧
      ReadAt f 4 (addInt (addInt cursor 16) (Int.ofNat (wrap32 (i * 12)))) = .ok c ∧
      r = ⟨Uint32 a, Uint32 b, Uint32 c⟩ := by
  unfold readRecord at h
  split at h
  · rename_i a b c ha hb hc
    exact ⟨a, b, c, ha, hb, hc, (Option.some.inj h).symm⟩
  · cases h

theorem itemBody_of_failed_payload (f : Source) (n i : Nat) (st : ItemState)
    (num off size : List Byte) (err : ReadError)
    (h1 : ReadAt f 4 (addInt (addInt st.cursor 8) (Int.ofNat (wrap32 (i * 12)))) = .ok num)
    (h2 : ReadAt f 4 (addInt (addInt st.cursor 12) (Int.ofNat (wrap32 (i * 12)))) = .ok off)
    (h3 : ReadAt f 4 (addInt (addInt st.cursor 16) (Int.ofNat (wrap32 (i * 12)))) = .ok size)
    (h4 : ReadAt f (Uint32 size) (Int.ofNat (Uint32 off)) = .error err) :
    itemBody f n i st = .error (SrfData.empty, some (.readItem err)) := by
  unfold itemBody
  rw [h1]
  dsimp only
  rw [h2]
  dsimp only
  rw [h3]
  dsimp only
  rw [h4]

/-- C6, as the code has it: when the directory walk reaches an item record of
size at least 1 whose payload range ends beyond the end of the source,
`DecodeSrfFile` returns the zero `SrfData` with the error of the failed payload
read, and returns nothing else, so no result holds a shortened or padded
payload.  (A record of size 0 is read successfully at any offset.) -/
theorem payload_past_end_fails (f : Source) (r : Record) (h : ReachesRecord f r)
    (hsz : 1 ≤ r.size) (hend : f.size < r.off + r.size) :
    Returns f (SrfData.empty, some (.readItem .eof)) ∧
      ∀ r' : Ret, Returns f r' → r' = (SrfData.empty, some (.readItem .eof)) := by
  have hret : Returns f (SrfData.empty, some (.readItem .eof)) := by
    obtain ⟨hl, k, st, id, nb, i, ist, hhead, hwalk, hne, hid, hnb, hi, hiw, hrec⟩ := h
    obtain ⟨a, b, c, ha, hb, hc, hr⟩ := readRecord_some f ist.cursor i r hrec
    subst hr
    have hpay : ReadAt f (Uint32 c) (Int.ofNat (Uint32 b)) = .error .eof := by
      rw [Int.ofNat_eq_coe]
      exact ReadAt_eof f (Uint32 c) (Uint32 b) hsz hend
    have hbody := itemBody_of_failed_payload f (Uint32 nb) i ist a b c .eof ha hb hc hpay
    obtain ⟨m, hm⟩ : ∃ m, Uint32 nb = i + (m + 1) := ⟨Uint32 nb - i - 1, by omega⟩
    have hloop : itemLoop f (Uint32 nb) (Uint32 nb) 0 ⟨st.cursor, []⟩ =
        .error (SrfData.empty, some (.readItem .eof)) := by
      have h1 := itemWalk_itemLoop f (Uint32 nb) st.cursor i ist hiw (m + 1)
      rw [← hm] at h1
      rw [h1, itemLoop, hbody]
    have hres : resourceBody f st = .error (SrfData.empty, some (.readItem .eof)) := by
      unfold resourceBody
      rw [hid]
      dsimp only
      rw [hnb]
      dsimp only
      rw [hloop]
    refine ⟨k + 1, ?_⟩
    rw [DecodeSrfFile, hhead]
    dsimp only
    rw [walk_resourceLoop f _ k st hwalk 1, resourceLoop, if_neg hne, hres]
  exact ⟨hret, fun r' hr' => Returns_unique f _ _ hr' hret⟩

theorem payload_past_end_fails_witness :
    ReachesRecord exPastEnd ⟨7, 30, 4⟩ ∧ exPastEnd.size < 30 + 4 ∧
    Returns exPastEnd (SrfData.empty, some (.readItem .eof)) ∧
      ∀ r' : Ret, Returns exPastEnd r' → r' = (SrfData.empty, some (.readItem .eof)) :=
  have hr : ReachesRecord exPastEnd ⟨7, 30, 4⟩ :=
    ⟨putU32 20, 0, loopStart, ascii "TEX0", putU32 1, 0, ⟨12, []⟩, by decide, by decide,
      by decide, by decide, by decide, by decide, by decide, by decide⟩
  ⟨hr, by decide, payload_past_end_fails exPastEnd ⟨7, 30, 4⟩ hr (by decide) (by decide)⟩

/-- C6, as stated, fails: the walk of `exZeroSizeItem` (32 bytes) reaches the
record (item 7, offset 1000, size 0), whose offset plus size is beyond the end
of the source, and `DecodeSrfFile` succeeds, with item 7 mapped to the empty
payload. -/
theorem zero_size_item_past_end_decodes :
    ReachesRecord exZeroSizeItem ⟨7, 1000, 0⟩ ∧ exZeroSizeItem.size < 1000 + 0 ∧
    DecodeSrfFile 2 exZeroSizeItem =
      some (⟨[(ascii "TEX0", ⟨ascii "TEX0", [(7, [])]⟩)]⟩, none) :=
  ⟨⟨putU32 20, 0, loopStart, ascii "TEX0", putU32 1, 0, ⟨12, []⟩, by decide, by decide,
      by decide, by decide, by decide, by decide, by decide, by decide⟩, by decide, by decide⟩

/-- C11: a source shorter than 12 bytes makes `DecodeSrfFile` fail, with the zero
`SrfData`, for every fuel; when it has 8 to 11 bytes, the magic `srf1` and a file
length field equal to its size, the error is the failed read of the header
length. -/
theorem short_source_fails (f : Source) (h : f.size < 12) :
    ∃ e : DecodeError, (∀ fuel, DecodeSrfFile fuel f = some (SrfData.empty, some e)) ∧
      (8 ≤ f.size → bytes f 0 4 = srf1 → be32At f 4 = f.size → e = .readHeaderLength .eof) := by
  have hgen : ∀ r : Ret, decodeHeader f = .error r →
      ∃ e : DecodeError, r = (SrfData.empty, some e) := by
    intro r hr
    obtain ⟨h1, h2⟩ := decodeHeader_error f r hr
    obtain ⟨d, oe⟩ := r
    cases oe with
    | none => exact absurd rfl h2
    | some e => exact ⟨e, by cases h1; rfl⟩
  have r8 : ReadAt f 4 8 = .error .eof := by
    have := ReadAt_eof f 4 8 (by decide) (by omega)
    simpa using this
  by_cases hok : 8 ≤ f.size ∧ bytes f 0 4 = srf1 ∧ be32At f 4 = f.size
  · obtain ⟨h8, hm, hl⟩ := hok
    have hw : wrap32 f.size = f.size := wrap32_small _ (by omega)
    have r0 : ReadAt f 4 0 = .ok (bytes f 0 4) := by
      have := ReadAt_ok' f 4 0 (by omega)
      simpa using this
    have r4 : ReadAt f 4 4 = .ok (bytes f 4 4) := by
      have := ReadAt_ok' f 4 4 (by omega)
      simpa using this
    unfold be32At at hl
    have hd : decodeHeader f = .error (SrfData.empty, some (.readHeaderLength .eof)) := by
      unfold decodeHeader
      rw [r0]
      dsimp only
      rw [if_neg (not_not.mpr hm), r4]
      dsimp only
      rw [if_neg (not_not.mpr (by rw [hw]; exact hl)), r8]
    refine ⟨.readHeaderLength .eof, fun fuel => ?_, fun _ _ _ => rfl⟩
    rw [DecodeSrfFile, hd]
  · cases hd : decodeHeader f with
    | error r =>
      obtain ⟨e, he⟩ := hgen r hd
      refine ⟨e, fun fuel => ?_, fun a b c => absurd ⟨a, b, c⟩ hok⟩
      rw [DecodeSrfFile, hd, he]
    | ok hlb =>
      exfalso
      unfold decodeHeader at hd
      split at hd
      · cases hd
      · split at hd
        · cases hd
        · split at hd
          · cases hd
          · split at hd
            · cases hd
            · rw [r8] at hd
              cases hd

theorem short_source_fails_witness :
    exShort.size < 12 ∧
    ∃ e : DecodeError, (∀ fuel, DecodeSrfFile fuel exShort = some (SrfData.empty, some e)) ∧
      (8 ≤ exShort.size → bytes exShort 0 4 = srf1 → be32At exShort 4 = exShort.size →
        e = .readHeaderLength .eof) :=
  ⟨by decide, short_source_fails exShort (by decide)⟩

theorem ReadAt_ok_inv (f : Source) (len : Nat) (off : Int) (bs : List Byte)
    (h : ReadAt f len off = .ok bs) :
    0 ≤ off ∧ (len = 0 ∨ off.toNat + len ≤ f.size) ∧ bs = bytes f off.toNat len := by
  unfold ReadAt at h
  split at h
  · cases h
  · rename_i h0
    split at h
    · rename_i hl
      cases h
      subst hl
      exact ⟨by omega, Or.inl rfl, rfl⟩
    · split at h
      · rename_i hle
        cases h
        exact ⟨by omega, Or.inr hle, rfl⟩
      · cases h

theorem ReadAt4_ok_inv (f : Source) (off : Int) (bs : List Byte) (h : ReadAt f 4 off = .ok bs) :
    0 ≤ off ∧ off.toNat + 4 ≤ f.size ∧ bs = bytes f off.toNat 4 := by
  obtain ⟨h0, h1, h2⟩ := ReadAt_ok_inv f 4 off bs h
  rcases h1 with h1 | h1
  · cases h1
  · exact ⟨h0, h1, h2⟩

theorem itemBody_ok_inv (f : Source) (n i : Nat) (st st' : ItemState)
    (h : itemBody f n i st = .ok st') :
    ∃ num off size data : List Byte,
      ReadAt f 4 (addInt (addInt st.cursor 8) (Int.ofNat (wrap32 (i * 12)))) = .ok num ∧
      ReadAt f 4 (addInt (addInt st.cursor 12) (Int.ofNat (wrap32 (i * 12)))) = .ok off ∧
      ReadAt f 4 (addInt (addInt st.cursor 16) (Int.ofNat (wrap32 (i * 12)))) = .ok size ∧
      ReadAt f (Uint32 size) (Int.ofNat (Uint32 off)) = .ok data ∧
      st' = (if wrap32 (i + 1) = n then
          ⟨addInt st.cursor (addInt 8 (mulInt (Int.ofNat n) 12)),
            mapSet st.items (Int.ofNat (Uint32 num)) data⟩
        else ⟨st.cursor, mapSet st.items (Int.ofNat (Uint32 num)) data⟩) := by
  cases h1 : ReadAt f 4 (addInt (addInt st.cursor 8) (Int.ofNat (wrap32 (i * 12)))) with
  | error e => rw [itemBody, h1] at h; cases h
  | ok num =>
    cases h2 : ReadAt f 4 (addInt (addInt st.cursor 12) (Int.ofNat (wrap32 (i * 12)))) with
    | error e => rw [itemBody, h1] at h; dsimp only at h; rw [h2] at h; cases h
    | ok off =>
      cases h3 : ReadAt f 4 (addInt (addInt st.cursor 16) (Int.ofNat (wrap32 (i * 12)))) with
      | error e =>
        rw [itemBody, h1] at h; dsimp only at h; rw [h2] at h; dsimp only at h
        rw [h3] at h; cases h
      | ok size =>
        cases h4 : ReadAt f (Uint32 size) (Int.ofNat (Uint32 off)) with
        | error e =>
          rw [itemBody_of_failed_payload f n i st num off size e h1 h2 h3 h4] at h
          cases h
        | ok data =>
          rw [itemBody_of_reads f n i st num off size data h1 h2 h3 h4] at h
          exact ⟨num, off, size, data, rfl, rfl, rfl, h4, (Except.ok.inj h).symm⟩

theorem resourceBody_ok_inv (f : Source) (st st' : LoopState)
    (h : resourceBody f st = .ok st') :
    ∃ (id nb : List Byte) (ist : ItemState),
      ReadAt f 4 st.cursor = .ok id ∧ ReadAt f 4 (addInt st.cursor 4) = .ok nb ∧
      itemLoop f (Uint32 nb) (Uint32 nb) 0 ⟨st.cursor, []⟩ = .ok ist ∧
      st' = ⟨ist.cursor, ⟨mapSet st.data.Resources id ⟨id, ist.items⟩⟩⟩ := by
  cases h1 : ReadAt f 4 st.cursor with
  | error e => rw [resourceBody, h1] at h; cases h
  | ok id =>
    cases h2 : ReadAt f 4 (addInt st.cursor 4) with
    | error e => rw [resourceBody, h1] at h; dsimp only at h; rw [h2] at h; cases h
    | ok nb =>
      cases h3 : itemLoop f (Uint32 nb) (Uint32 nb) 0 ⟨st.cursor, []⟩ with
      | error e =>
        rw [resourceBody, h1] at h; dsimp only at h; rw [h2] at h; dsimp only at h
        rw [h3] at h; cases h
      | ok ist =>
        rw [resourceBody_of_reads f st id nb ist h1 h2 h3] at h
        exact ⟨id, nb, ist, rfl, rfl, h3, (Except.ok.inj h).symm⟩

theorem itemWalk_succ_inv (f : Source) (n : Nat) (c : Int) (i : Nat) (x : ItemState)
    (h : itemWalk f n c (i + 1) = some x) :
    ∃ ist, itemWalk f n c i = some ist ∧ itemBody f n i ist = .ok x := by
  rw [itemWalk] at h
  cases hw : itemWalk f n c i with
  | none => rw [hw] at h; cases h
  | some ist =>
    rw [hw] at h
    dsimp only at h
    cases hb : itemBody f n i ist with
    | error e => rw [hb] at h; cases h
    | ok y =>
      rw [hb] at h
      cases h
      exact ⟨ist, rfl, hb⟩

theorem itemWalk_succ (f : Source) (n : Nat) (c : Int) (i : Nat) (ist x : ItemState)
    (hw : itemWalk f n c i = some ist) (hb : itemBody f n i ist = .ok x) :
    itemWalk f n c (i + 1) = some x := by
  rw [itemWalk, hw]
  dsimp only
  rw [hb]

theorem walk_succ_inv (f : Source) (T : Int) (k : Nat) (x : LoopState)
    (h : walk f T (k + 1) = some x) :
    ∃ st, walk f T k = some st ∧ st.cursor ≠ T ∧ resourceBody f st = .ok x := by
  rw [walk] at h
  cases hw : walk f T k with
  | none => rw [hw] at h; cases h
  | some st =>
    rw [hw] at h
    dsimp only at h
    by_cases hc : st.cursor = T
    · rw [if_pos hc] at h; cases h
    · rw [if_neg hc] at h
      cases hb : resourceBody f st with
      | error e => rw [hb] at h; cases h
      | ok y =>
        rw [hb] at h
        cases h
        exact ⟨st, rfl, hc, hb⟩

theorem walk_succ (f : Source) (T : Int) (k : Nat) (st x : LoopState)
    (hw : walk f T k = some st) (hc : st.cursor ≠ T) (hb : resourceBody f st = .ok x) :
    walk f T (k + 1) = some x := by
  rw [walk, hw]
  dsimp only
  rw [if_neg hc, hb]

theorem itemLoop_itemWalk (f : Source) (n : Nat) (c : Int) (k : Nat) :
    ∀ (i : Nat) (ist istF : ItemState), itemWalk f n c i = some ist →
      itemLoop f n k i ist = .ok istF → itemWalk f n c (i + k) = some istF := by
  induction k with
  | zero =>
    intro i ist istF hw hl
    rw [itemLoop] at hl
    cases hl
    exact hw
  | succ k ih =>
    intro i ist istF hw hl
    rw [itemLoop] at hl
    cases hb : itemBody f n i ist with
    | error e => rw [hb] at hl; cases hl
    | ok ist1 =>
      rw [hb] at hl
      dsimp only at hl
      have h1 := ih (i + 1) ist1 istF (itemWalk_succ f n c i ist ist1 hw hb) hl
      rw [Nat.add_assoc, Nat.add_comm 1 k] at h1
      exact h1

theorem wrap64_range (x : Int) :
    -9223372036854775808 ≤ wrap64 x ∧ wrap64 x < 9223372036854775808 := by
  unfold wrap64
  omega

theorem wrap64_add_cases (c d : Int) (hc0 : 0 ≤ c) (hc : c < 9223372036854775808)
    (hd0 : 0 ≤ d) (hd : d < 9223372036854775808) :
    (c + d < 9223372036854775808 ∧ wrap64 (c + d) = c + d) ∨
      (9223372036854775808 ≤ c + d ∧ wrap64 (c + d) < 0) := by
  unfold wrap64
  omega

theorem advance_eq (c : Int) (n : Nat) (hn : n < 4294967296) :
    addInt c (addInt 8 (mulInt (Int.ofNat n) 12)) = wrap64 (c + (8 + 12 * (n : Int))) := by
  have h1 : mulInt (Int.ofNat n) 12 = (n : Int) * 12 := by
    rw [Int.ofNat_eq_coe]
    exact wrap64_small _ (by omega) (by omega)
  have h2 : addInt 8 ((n : Int) * 12) = 8 + (n : Int) * 12 :=
    addInt_small _ _ (by omega) (by omega)
  have h3 : (8 : Int) + (n : Int) * 12 = 8 + 12 * (n : Int) := by omega
  rw [h1, h2, h3]
  rfl

theorem itemWalk_cursor (f : Source) (n : Nat) (c : Int) (hn : n < 4294967296) (i : Nat) :
    ∀ ist : ItemState, i < n → itemWalk f n c i = some ist → ist.cursor = c := by
  induction i with
  | zero =>
    intro ist _ h
    rw [itemWalk] at h
    cases h
    rfl
  | succ i ih =>
    intro ist hi h
    obtain ⟨ist0, hw, hb⟩ := itemWalk_succ_inv f n c i ist h
    have hc0 := ih ist0 (by omega) hw
    obtain ⟨num, off, size, data, _, _, _, _, hst⟩ := itemBody_ok_inv f n i ist0 ist hb
    have hw1 : wrap32 (i + 1) = i + 1 := wrap32_small _ (by omega)
    have hne : ¬ (i + 1 = n) := by omega
    rw [hw1, if_neg hne] at hst
    rw [hst]
    exact hc0

theorem itemWalk_cursor_last (f : Source) (n : Nat) (c : Int) (hn : n < 4294967296)
    (h1 : 1 ≤ n) (ist : ItemState) (h : itemWalk f n c n = some ist) :
    ist.cursor = addInt c (addInt 8 (mulInt (Int.ofNat n) 12)) := by
  obtain ⟨m, rfl⟩ : ∃ m, n = m + 1 := ⟨n - 1, by omega⟩
  obtain ⟨ist0, hw, hb⟩ := itemWalk_succ_inv f (m + 1) c m ist h
  have hc0 := itemWalk_cursor f (m + 1) c hn m ist0 (by omega) hw
  obtain ⟨num, off, size, data, _, _, _, _, hst⟩ := itemBody_ok_inv f (m + 1) m ist0 ist hb
  have hw1 : wrap32 (m + 1) = m + 1 := wrap32_small _ hn
  rw [hw1, if_pos rfl] at hst
  rw [hst, hc0]

theorem resourceBody_cursor (f : Source) (st st' : LoopState)
    (h : resourceBody f st = .ok st') :
    ∃ id nb : List Byte,
      ReadAt f 4 st.cursor = .ok id ∧ ReadAt f 4 (addInt st.cursor 4) = .ok nb ∧
      ((Uint32 nb = 0 ∧ st'.cursor = st.cursor) ∨
        (1 ≤ Uint32 nb ∧ st'.cursor = wrap64 (st.cursor + (8 + 12 * (Uint32 nb : Int))))) := by
  obtain ⟨id, nb, ist, hid, hnb, hloop, hst⟩ := resourceBody_ok_inv f st st' h
  have hn := Uint32_lt nb
  have hw0 : itemWalk f (Uint32 nb) st.cursor 0 = some ⟨st.cursor, []⟩ := by rw [itemWalk]
  have hw := itemLoop_itemWalk f (Uint32 nb) st.cursor (Uint32 nb) 0 _ ist hw0 hloop
  rw [Nat.zero_add] at hw
  refine ⟨id, nb, hid, hnb, ?_⟩
  by_cases h0 : Uint32 nb = 0
  · left
    rw [h0, itemWalk] at hw
    cases hw
    rw [hst]
    exact ⟨h0, rfl⟩
  · right
    have h1 : 1 ≤ Uint32 nb := by omega
    have hc := itemWalk_cursor_last f (Uint32 nb) st.cursor hn h1 ist hw
    rw [advance_eq _ _ hn] at hc
    rw [hst]
    exact ⟨h1, hc⟩

theorem walk_range (f : Source) (T : Int) (k : Nat) :
    ∀ st : LoopState, walk f T k = some st →
      -9223372036854775808 ≤ st.cursor ∧ st.cursor < 9223372036854775808 := by
  induction k with
  | zero =>
    intro st h
    rw [walk] at h
    cases h
    exact ⟨by decide, by decide⟩
  | succ k ih =>
    intro st h
    obtain ⟨st0, hw, _, hb⟩ := walk_succ_inv f T k st h
    obtain ⟨id, nb, _, _, hc⟩ := resourceBody_cursor f st0 st hb
    rcases hc with ⟨_, hc⟩ | ⟨_, hc⟩
    · rw [hc]; exact ih st0 hw
    · rw [hc]; exact wrap64_range _

theorem loopTarget_eq (hl : List Byte) : loopTarget hl = 12 + (Uint32 hl : Int) := by
  have h := Uint32_lt hl
  unfold loopTarget
  rw [Int.ofNat_eq_coe]
  exact addInt_small _ _ (by omega) (by omega)

theorem decodeHeader_ok_inv (f : Source) (hl : List Byte) (h : decodeHeader f = .ok hl) :
    12 ≤ f.size ∧ hl = bytes f 8 4 ∧ bytes f 0 4 = srf1 ∧
      Uint32 (bytes f 4 4) = wrap32 f.size := by
  unfold decodeHeader at h
  split at h
  · cases h
  · rename_i magic h0
    split at h
    · cases h
    · rename_i hm
      split at h
      · cases h
      · rename_i fileLen h4
        split at h
        · cases h
        · rename_i hlen
          split at h
          · cases h
          · rename_i headerLen h8
            cases h
            obtain ⟨_, _, e0⟩ := ReadAt4_ok_inv f 0 magic h0
            obtain ⟨_, _, e4⟩ := ReadAt4_ok_inv f 4 fileLen h4
            obtain ⟨_, s8, e8⟩ := ReadAt4_ok_inv f 8 hl h8
            have t0 : (0 : Int).toNat = 0 := rfl
            have t4 : (4 : Int).toNat = 4 := rfl
            have t8 : (8 : Int).toNat = 8 := rfl
            rw [t0] at e0
            rw [t4] at e4
            rw [t8] at e8 s8
            refine ⟨by omega, e8, ?_, ?_⟩
            · rw [← e0]; exact not_not.mp hm
            · rw [← e4]; exact not_not.mp hlen

theorem resourceLoop_out_of_range (f : Source) (T : Int) (hT : 0 ≤ T) (fuel : Nat) :
    ∀ st : LoopState, (st.cursor < 0 ∨ T < st.cursor) → st.cursor < 9223372036854775808 →
      ∀ d : SrfData, resourceLoop f T fuel st ≠ some (d, none) := by
  induction fuel with
  | zero =>
    intro st _ _ d h
    rw [resourceLoop] at h
    cases h
  | succ n ih =>
    intro st hout hlt d h
    have hne : ¬ (st.cursor = T) := by omega
    rw [resourceLoop, if_neg hne] at h
    cases hb : resourceBody f st with
    | error r =>
      rw [hb] at h
      have hr := (resourceBody_error f st r hb).2
      cases h
      exact hr rfl
    | ok st' =>
      rw [hb] at h
      dsimp only at h
      obtain ⟨id, nb, hid, _, hc⟩ := resourceBody_cursor f st st' hb
      obtain ⟨h0, _, _⟩ := ReadAt4_ok_inv f st.cursor id hid
      have hn := Uint32_lt nb
      rcases hc with ⟨_, hc⟩ | ⟨h1, hc⟩
      · exact ih st' (by rw [hc]; exact hout) (by rw [hc]; exact hlt) d h
      · have hr := wrap64_range (st.cursor + (8 + 12 * (Uint32 nb : Int)))
        have hcases := wrap64_add_cases st.cursor (8 + 12 * (Uint32 nb : Int)) h0 hlt
          (by omega) (by omega)
        rw [← hc] at hr hcases
        exact ih st' (by omega) hr.2 d h

theorem resourceLoop_ok_walk (f : Source) (T : Int) (d : SrfData) (fuel : Nat) :
    ∀ (k : Nat) (st : LoopState), walk f T k = some st →
      resourceLoop f T fuel st = some (d, none) → ∃ k', walk f T k' = some ⟨T, d⟩ := by
  induction fuel with
  | zero =>
    intro k st _ h
    rw [resourceLoop] at h
    cases h
  | succ n ih =>
    intro k st hw h
    rw [resourceLoop] at h
    by_cases hc : st.cursor = T
    · rw [if_pos hc] at h
      cases h
      refine ⟨k, ?_⟩
      rw [hw, ← hc]
    · rw [if_neg hc] at h
      cases hb : resourceBody f st with
      | error r =>
        rw [hb] at h
        have hr := (resourceBody_error f st r hb).2
        cases h
        exact absurd rfl hr
      | ok st' =>
        rw [hb] at h
        exact ih (k + 1) st' (walk_succ f T k st st' hw hc hb) h

theorem returns_ok_walk (f : Source) (d : SrfData) (h : Returns f (d, none)) :
    ∃ (hl : List Byte) (k : Nat),
      decodeHeader f = .ok hl ∧ walk f (loopTarget hl) k = some ⟨loopTarget hl, d⟩ := by
  obtain ⟨fuel, hf⟩ := h
  rw [DecodeSrfFile] at hf
  cases hd : decodeHeader f with
  | error r =>
    rw [hd] at hf
    have hr := (decodeHeader_error f r hd).2
    cases hf
    exact absurd rfl hr
  | ok hl =>
    rw [hd] at hf
    dsimp only at hf
    have hw0 : walk f (loopTarget hl) 0 = some loopStart := by rw [walk]
    obtain ⟨k, hk⟩ := resourceLoop_ok_walk f _ d fuel 0 loopStart hw0 hf
    exact ⟨hl, k, rfl, hk⟩

theorem walk_returns (f : Source) (hl : List Byte) (k : Nat) (st : LoopState)
    (hd : decodeHeader f = .ok hl) (hw : walk f (loopTarget hl) k = some st)
    (hc : st.cursor = loopTarget hl) : DecodeSrfFile (k + 1) f = some (st.data, none) := by
  rw [DecodeSrfFile, hd]
  dsimp only
  rw [walk_resourceLoop f _ k st hw 1, resourceLoop, if_pos hc]

theorem walk_le_target (f : Source) (d : SrfData) (hl : List Byte) (h : Returns f (d, none))
    (hd : decodeHeader f = .ok hl) (j : Nat) (st : LoopState)
    (hw : walk f (loopTarget hl) j = some st) :
    0 ≤ st.cursor ∧ st.cursor ≤ loopTarget hl := by
  have hT := loopTarget_eq hl
  have hr := walk_range f _ j st hw
  by_contra hcon
  have hout : st.cursor < 0 ∨ loopTarget hl < st.cursor := by omega
  obtain ⟨fuel, hf⟩ := h
  have hf2 := DecodeSrfFile_mono f fuel (j + fuel) _ hf (by omega)
  rw [DecodeSrfFile, hd] at hf2
  dsimp only at hf2
  rw [walk_resourceLoop f _ j st hw fuel] at hf2
  exact resourceLoop_out_of_range f _ (by omega) fuel st hout hr.2 d hf2

theorem no_empty_of_returns (f : Source) (r : Ret) (h : Returns f r) : ¬ ReachesEmptyEntry f := by
  rintro ⟨hl, k, st, id, nb, hd, hw, hne, hid, hnb, h0⟩
  obtain ⟨fuel, hf⟩ := h
  have hf2 := DecodeSrfFile_mono f fuel (k + fuel) _ hf (by omega)
  rw [DecodeSrfFile, hd] at hf2
  dsimp only at hf2
  rw [walk_resourceLoop f _ k st hw fuel] at hf2
  have hs := resourceLoop_stuck f (loopTarget hl) st.cursor id nb hne hid hnb h0 fuel st.data
  rw [hs] at hf2
  cases hf2

theorem ReadAt_neg (f : Source) (len : Nat) (off : Int) (h : off < 0) :
    ReadAt f len off = .error .negativeOffset := by
  unfold ReadAt
  rw [if_pos h]

theorem resourceLoop_one_of_error (f : Source) (T : Int) (st : LoopState) (r : Ret)
    (hb : resourceBody f st = .error r) (hc : st.cursor ≠ T) :
    resourceLoop f T 1 st = some r := by
  rw [resourceLoop, if_neg hc, hb]

theorem resourceLoop_one_of_neg (f : Source) (T : Int) (hT : 0 ≤ T) (st : LoopState)
    (h : st.cursor < 0) : ∃ r : Ret, resourceLoop f T 1 st = some r := by
  have hc : st.cursor ≠ T := by omega
  have hb : resourceBody f st = .error (SrfData.empty, some (.readResourceId .negativeOffset)) := by
    rw [resourceBody, ReadAt_neg f 4 st.cursor h]
  exact ⟨_, resourceLoop_one_of_error f T st _ hb hc⟩

theorem resourceLoop_terminates (f : Source) (hl : List Byte) (hd : decodeHeader f = .ok hl)
    (hne : ¬ ReachesEmptyEntry f) (m : Nat) :
    ∀ (k : Nat) (st : LoopState), walk f (loopTarget hl) k = some st →
      (st.cursor < 0 ∨ (f.size : Int) ≤ st.cursor + m) →
      ∃ (fuel : Nat) (r : Ret), fuel ≤ m + 2 ∧ resourceLoop f (loopTarget hl) fuel st = some r := by
  have hT := loopTarget_eq hl
  have hT0 : 0 ≤ loopTarget hl := by omega
  induction m with
  | zero =>
    intro k st hw hcur
    by_cases hneg : st.cursor < 0
    · obtain ⟨r, hr⟩ := resourceLoop_one_of_neg f _ hT0 st hneg
      exact ⟨1, r, by omega, hr⟩
    · by_cases hc : st.cursor = loopTarget hl
      · exact ⟨1, (st.data, none), by omega, by rw [resourceLoop, if_pos hc]⟩
      · cases hb : resourceBody f st with
        | error r => exact ⟨1, r, by omega, resourceLoop_one_of_error f _ st r hb hc⟩
        | ok st' =>
          exfalso
          obtain ⟨id, nb, hid, _, _⟩ := resourceBody_cursor f st st' hb
          obtain ⟨_, h4, _⟩ := ReadAt4_ok_inv f st.cursor id hid
          omega
  | succ m ih =>
    intro k st hw hcur
    by_cases hneg : st.cursor < 0
    · obtain ⟨r, hr⟩ := resourceLoop_one_of_neg f _ hT0 st hneg
      exact ⟨1, r, by omega, hr⟩
    · by_cases hc : st.cursor = loopTarget hl
      · exact ⟨1, (st.data, none), by omega, by rw [resourceLoop, if_pos hc]⟩
      · cases hb : resourceBody f st with
        | error r => exact ⟨1, r, by omega, resourceLoop_one_of_error f _ st r hb hc⟩
        | ok st' =>
          have hw' := walk_succ f _ k st st' hw hc hb
          obtain ⟨id, nb, hid, hnb, hcases⟩ := resourceBody_cursor f st st' hb
          have hn := Uint32_lt nb
          have hrange := walk_range f _ k st hw
          rcases hcases with ⟨h0, _⟩ | ⟨h1, hcur'⟩
          · exact absurd ⟨hl, k, st, id, nb, hd, hw, hc, hid, hnb, h0⟩ hne
          · have hwc := wrap64_add_cases st.cursor (8 + 12 * (Uint32 nb : Int)) (by omega)
              hrange.2 (by omega) (by omega)
            rw [← hcur'] at hwc
            obtain ⟨fuel, r, hfuel, hr⟩ := ih (k + 1) st' hw' (by omega)
            refine ⟨fuel + 1, r, by omega, ?_⟩
            rw [resourceLoop, if_neg hc, hb]
            exact hr

/-- C13: on a source whose directory walk never reaches an entry with item count
0, `DecodeSrfFile` returns (a result or an error) within `size + 2` evaluations
of the loop condition.  On such a source of fewer than 2^62 bytes every entry
the walk passes has an item count `n >= 1`, lies with its first 8 bytes inside
the source, and moves the cursor forward by exactly `8 + 12 * n >= 20`. -/
theorem terminates_without_empty_entry (f : Source) (h : ¬ ReachesEmptyEntry f) :
    (∃ r : Ret, DecodeSrfFile (f.size + 2) f = some r) ∧
    (f.size < 4611686018427387904 →
      ∀ (hl : List Byte) (k : Nat) (st st' : LoopState), decodeHeader f = .ok hl →
        walk f (loopTarget hl) k = some st → walk f (loopTarget hl) (k + 1) = some st' →
        1 ≤ countAt f st ∧ st.cursor + 8 ≤ (f.size : Int) ∧
        st'.cursor = st.cursor + (8 + 12 * (countAt f st : Int)) ∧
        st.cursor + 20 ≤ st'.cursor) := by
  constructor
  · cases hd : decodeHeader f with
    | error r => exact ⟨r, by rw [DecodeSrfFile, hd]⟩
    | ok hl =>
      have hw0 : walk f (loopTarget hl) 0 = some loopStart := by rw [walk]
      have hstart : loopStart.cursor = 12 := rfl
      obtain ⟨fuel, r, hfuel, hr⟩ := resourceLoop_terminates f hl hd h f.size 0 loopStart hw0
        (by rw [hstart]; omega)
      refine ⟨r, ?_⟩
      rw [DecodeSrfFile, hd]
      exact resourceLoop_mono f _ fuel loopStart r hr (f.size + 2) hfuel
  · intro hsmall hl k st st' hd hw hw'
    obtain ⟨st0, hw0, hc, hb⟩ := walk_succ_inv f _ k st' hw'
    rw [hw] at hw0
    cases hw0
    obtain ⟨id, nb, hid, hnb, hcases⟩ := resourceBody_cursor f st st' hb
    have hn := Uint32_lt nb
    obtain ⟨h0, _, _⟩ := ReadAt4_ok_inv f st.cursor id hid
    obtain ⟨h40, h44, _⟩ := ReadAt4_ok_inv f _ nb hnb
    have hrange := walk_range f _ k st hw
    have ha : addInt st.cursor 4 = wrap64 (st.cursor + 4) := rfl
    have hwc4 := wrap64_add_cases st.cursor 4 h0 hrange.2 (by omega) (by omega)
    rw [← ha] at hwc4
    have hcount : countAt f st = Uint32 nb := by
      unfold countAt
      rw [hnb]
    rw [hcount]
    rcases hcases with ⟨h0', _⟩ | ⟨h1, hcur'⟩
    · exact absurd ⟨hl, k, st, id, nb, hd, hw, hc, hid, hnb, h0'⟩ h
    · have hwc := wrap64_add_cases st.cursor (8 + 12 * (Uint32 nb : Int)) h0
        hrange.2 (by omega) (by omega)
      rw [← hcur'] at hwc
      omega

theorem terminates_without_empty_entry_witness :
    ¬ ReachesEmptyEntry exTex0 ∧
    (∃ r : Ret, DecodeSrfFile (exTex0.size + 2) exTex0 = some r) ∧
    (exTex0.size < 4611686018427387904 →
      ∀ (hl : List Byte) (k : Nat) (st st' : LoopState), decodeHeader exTex0 = .ok hl →
        walk exTex0 (loopTarget hl) k = some st → walk exTex0 (loopTarget hl) (k + 1) = some st' →
        1 ≤ countAt exTex0 st ∧ st.cursor + 8 ≤ (exTex0.size : Int) ∧
        st'.cursor = st.cursor + (8 + 12 * (countAt exTex0 st : Int)) ∧
        st.cursor + 20 ≤ st'.cursor) :=
  have hne : ¬ ReachesEmptyEntry exTex0 :=
    no_empty_of_returns exTex0
      (⟨[(ascii "TEX0", ⟨ascii "TEX0", [(0, ascii "AAAA"), (1, ascii "BBB")]⟩)]⟩, none)
      ⟨2, by decide⟩
  ⟨hne, terminates_without_empty_entry exTex0 hne⟩

theorem mem_mapKeys_mapGet {K V : Type} [DecidableEq K] (m : List (K × V)) (k : K)
    (h : k ∈ mapKeys m) : ∃ v, mapGet m k = some v := by
  induction m with
  | nil => cases h
  | cons a m ih =>
    obtain ⟨a, b⟩ := a
    unfold mapGet
    by_cases hak : a = k
    · exact ⟨b, by rw [if_pos hak]⟩
    · rw [if_neg hak]
      apply ih
      unfold mapKeys at h ⊢
      rw [List.map_cons, List.mem_cons] at h
      rcases h with h | h
      · exact absurd h.symm hak
      · exact h

theorem length_mapSet_le {K V : Type} [DecidableEq K] (m : List (K × V)) (k : K) (v : V) :
    (mapSet m k v).length ≤ m.length + 1 := by
  induction m with
  | nil => rw [mapSet]; exact Nat.le_refl _
  | cons a m ih =>
    obtain ⟨a, b⟩ := a
    unfold mapSet
    by_cases hak : a = k
    · rw [if_pos hak, List.length_cons, List.length_cons]
      omega
    · rw [if_neg hak, List.length_cons, List.length_cons]
      omega

theorem walk_keys (f : Source) (T : Int) (k : Nat) :
    ∀ st : LoopState, walk f T k = some st →
      ∀ (key : List Byte) (res : SrfResource), mapGet st.data.Resources key = some res →
        res.Id = key ∧ ∃ (j : Nat) (st0 : LoopState),
          j < k ∧ walk f T j = some st0 ∧ st0.cursor ≠ T ∧ ReadAt f 4 st0.cursor = .ok key := by
  induction k with
  | zero =>
    intro st hw key res hg
    rw [walk] at hw
    cases hw
    cases hg
  | succ k ih =>
    intro st hw key res hg
    obtain ⟨st0, hw0, hc, hb⟩ := walk_succ_inv f T k st hw
    obtain ⟨id, nb, ist, hid, _, _, hst⟩ := resourceBody_ok_inv f st0 st hb
    rw [hst] at hg
    dsimp only at hg
    rw [mapGet_mapSet] at hg
    by_cases hk : id = key
    · rw [if_pos hk] at hg
      cases hg
      subst hk
      exact ⟨rfl, k, st0, by omega, hw0, hc, hid⟩
    · rw [if_neg hk] at hg
      obtain ⟨h1, j, st1, hj, hw1, hc1, hr1⟩ := ih st0 hw0 key res hg
      exact ⟨h1, j, st1, by omega, hw1, hc1, hr1⟩

/-- C17: whenever `DecodeSrfFile` succeeds, every key of the returned `Resources`
is 4 bytes long, the resource stored under it has that key as `Id`, and the key
is, byte for byte, the 4 bytes of the source at the cursor of an entry the walk
passed. -/
theorem keys_are_entry_identifiers (f : Source) (d : SrfData) (h : Returns f (d, none))
    (key : List Byte) (hk : key ∈ mapKeys d.Resources) :
    key.length = 4 ∧ (∃ res, mapGet d.Resources key = some res ∧ res.Id = key) ∧
    ∃ (hl : List Byte) (j : Nat) (st : LoopState),
      decodeHeader f = .ok hl ∧ walk f (loopTarget hl) j = some st ∧
      st.cursor ≠ loopTarget hl ∧ 0 ≤ st.cursor ∧ st.cursor.toNat + 4 ≤ f.size ∧
      key = bytes f st.cursor.toNat 4 := by
  obtain ⟨hl, k, hd, hw⟩ := returns_ok_walk f d h
  obtain ⟨res, hres⟩ := mem_mapKeys_mapGet d.Resources key hk
  obtain ⟨hid, j, st0, _, hw0, hc0, hr0⟩ := walk_keys f _ k _ hw key res hres
  obtain ⟨h0, h4, hb⟩ := ReadAt4_ok_inv f st0.cursor key hr0
  refine ⟨?_, ⟨res, hres, hid⟩, hl, j, st0, hd, hw0, hc0, h0, h4, hb⟩
  rw [hb]
  exact bytes_length f _ 4

theorem keys_are_entry_identifiers_witness :
    Returns exTex0
      (⟨[(ascii "TEX0", ⟨ascii "TEX0", [(0, ascii "AAAA"), (1, ascii "BBB")]⟩)]⟩, none) ∧
    (ascii "TEX0").length = 4 ∧
    (∃ res, mapGet [(ascii "TEX0", (⟨ascii "TEX0", [(0, ascii "AAAA"), (1, ascii "BBB")]⟩ :
        SrfResource))] (ascii "TEX0") = some res ∧ res.Id = ascii "TEX0") ∧
    ∃ (hl : List Byte) (j : Nat) (st : LoopState),
      decodeHeader exTex0 = .ok hl ∧ walk exTex0 (loopTarget hl) j = some st ∧
      st.cursor ≠ loopTarget hl ∧ 0 ≤ st.cursor ∧ st.cursor.toNat + 4 ≤ exTex0.size ∧
      ascii "TEX0" = bytes exTex0 st.cursor.toNat 4 :=
  have hr : Returns exTex0
      (⟨[(ascii "TEX0", ⟨ascii "TEX0", [(0, ascii "AAAA"), (1, ascii "BBB")]⟩)]⟩, none) :=
    ⟨2, by decide⟩
  ⟨hr, keys_are_entry_identifiers exTex0 _ hr (ascii "TEX0") (by decide)⟩

theorem recordOffsetInt (c : Int) (i : Nat) (d : Int) (hc0 : 0 ≤ c)
    (hc : c < 4611686018427387904) (hd0 : 0 ≤ d) (hd : d ≤ 16) (hi : i * 12 < 4294967296) :
    addInt (addInt c d) (Int.ofNat (wrap32 (i * 12))) = c + d + 12 * (i : Int) := by
  have h1 : addInt c d = c + d := addInt_small _ _ (by omega) (by omega)
  rw [wrap32_small _ hi, h1, Int.ofNat_eq_coe, addInt_small _ _ (by omega) (by omega)]
  omega

theorem entry_end_le_size (f : Source) (st st' : LoopState) (nb : List Byte)
    (hb : resourceBody f st = .ok st') (hc0 : 0 ≤ st.cursor)
    (hc : st.cursor < 4611686018427387904) (hnb : ReadAt f 4 (addInt st.cursor 4) = .ok nb)
    (h1 : 1 ≤ Uint32 nb) (h12 : Uint32 nb * 12 < 4294967296) :
    st.cursor + 8 + 12 * (Uint32 nb : Int) ≤ (f.size : Int) := by
  obtain ⟨id, nb', ist, _, hnb', hloop, _⟩ := resourceBody_ok_inv f st st' hb
  rw [hnb] at hnb'
  cases hnb'
  have hn := Uint32_lt nb
  have hw0 : itemWalk f (Uint32 nb) st.cursor 0 = some ⟨st.cursor, []⟩ := by rw [itemWalk]
  have hw := itemLoop_itemWalk f (Uint32 nb) st.cursor (Uint32 nb) 0 _ ist hw0 hloop
  rw [Nat.zero_add] at hw
  obtain ⟨m, hm⟩ : ∃ m, Uint32 nb = m + 1 := ⟨Uint32 nb - 1, by omega⟩
  rw [hm] at hw
  obtain ⟨ist0, hwm, hbody⟩ := itemWalk_succ_inv f (m + 1) st.cursor m ist hw
  have hcur := itemWalk_cursor f (m + 1) st.cursor (by omega) m ist0 (by omega) hwm
  obtain ⟨num, off, size, data, _, _, hsize, _, _⟩ := itemBody_ok_inv f (m + 1) m ist0 ist hbody
  rw [hcur, recordOffsetInt st.cursor m 16 hc0 hc (by decide) (by decide) (by omega)] at hsize
  obtain ⟨_, h4, _⟩ := ReadAt4_ok_inv f _ size hsize
  omega

theorem walkCounts_succ (f : Source) (T : Int) (k : Nat) (st : LoopState)
    (hw : walk f T k = some st) :
    walkCounts f T (k + 1) = walkCounts f T k ++ [countAt f st] := by
  unfold walkCounts
  rw [List.range_succ, List.map_append, List.map_singleton, hw]

theorem walk_tiling (f : Source) (d : SrfData) (hl : List Byte) (h : Returns f (d, none))
    (hd : decodeHeader f = .ok hl) (k : Nat) :
    ∀ st : LoopState, walk f (loopTarget hl) k = some st →
      st.cursor = 12 + ((((walkCounts f (loopTarget hl) k).map fun n => 8 + 12 * n).sum : Nat) : Int) ∧
      (∀ n ∈ walkCounts f (loopTarget hl) k, 1 ≤ n) ∧
      st.data.Resources.length ≤ k ∧ (walkCounts f (loopTarget hl) k).length = k := by
  have hT := loopTarget_eq hl
  have hU := Uint32_lt hl
  induction k with
  | zero =>
    intro st hw
    rw [walk] at hw
    cases hw
    refine ⟨rfl, ?_, Nat.le_refl _, rfl⟩
    intro n hn
    cases hn
  | succ k ih =>
    intro st hw
    obtain ⟨st0, hw0, hc, hb⟩ := walk_succ_inv f _ k st hw
    obtain ⟨ih1, ih2, ih3, ih4⟩ := ih st0 hw0
    obtain ⟨id, nb, hid, hnb, hcases⟩ := resourceBody_cursor f st0 st hb
    obtain ⟨id', nb', ist, _, _, _, hst⟩ := resourceBody_ok_inv f st0 st hb
    have hn := Uint32_lt nb
    have hcount : countAt f st0 = Uint32 nb := by
      unfold countAt
      rw [hnb]
    have hle0 := walk_le_target f d hl h hd k st0 hw0
    have hne := no_empty_of_returns f _ h
    rw [walkCounts_succ f _ k st0 hw0, hcount]
    rcases hcases with ⟨h0, _⟩ | ⟨h1, hcur⟩
    · exact absurd ⟨hl, k, st0, id, nb, hd, hw0, hc, hid, hnb, h0⟩ hne
    · have hsmall : wrap64 (st0.cursor + (8 + 12 * (Uint32 nb : Int))) =
          st0.cursor + (8 + 12 * (Uint32 nb : Int)) := wrap64_small _ (by omega) (by omega)
      rw [hsmall] at hcur
      refine ⟨?_, ?_, ?_, ?_⟩
      · rw [List.map_append, List.sum_append, List.map_singleton, List.sum_singleton, hcur, ih1]
        push_cast
        omega
      · intro n hmem
        rw [List.mem_append, List.mem_singleton] at hmem
        rcases hmem with hmem | hmem
        · exact ih2 n hmem
        · rw [hmem]; exact h1
      · rw [hst]
        dsimp only
        have := length_mapSet_le st0.data.Resources id' ⟨id', ist.items⟩
        omega
      · rw [List.length_append, List.length_singleton, ih4]

theorem sum_entry_sizes_ge (l : List Nat) (h : ∀ n ∈ l, 1 ≤ n) :
    20 * l.length ≤ (l.map fun n => 8 + 12 * n).sum := by
  induction l with
  | nil => exact Nat.le_refl _
  | cons a l ih =>
    have ha := h a (List.mem_cons_self _ _)
    have hl := ih (fun n hn => h n (List.mem_cons_of_mem _ hn))
    rw [List.map_cons, List.sum_cons, List.length_cons]
    omega

/-- C14: whenever `DecodeSrfFile` succeeds, the walk ends after some number `k`
of entries with the cursor on `0x0C + header_length`; the directory region lies
inside the source; header_length is the sum of `8 + 12 * item_count` over the `k`
entries walked, each of which has item count at least 1; so header_length is 0
or at least 20, and the result has at most `header_length / 20` resources. -/
theorem success_tiles_directory (f : Source) (d : SrfData) (h : Returns f (d, none)) :
    ∃ (hl : List Byte) (k : Nat),
      decodeHeader f = .ok hl ∧ walk f (loopTarget hl) k = some ⟨loopTarget hl, d⟩ ∧
      loopTarget hl = 12 + (Uint32 hl : Int) ∧
      12 + Uint32 hl ≤ f.size ∧
      Uint32 hl = ((walkCounts f (loopTarget hl) k).map fun n => 8 + 12 * n).sum ∧
      (walkCounts f (loopTarget hl) k).length = k ∧
      (∀ n ∈ walkCounts f (loopTarget hl) k, 1 ≤ n) ∧
      (Uint32 hl = 0 ∨ 20 ≤ Uint32 hl) ∧
      d.Resources.length ≤ Uint32 hl / 20 := by
  obtain ⟨hl, k, hd, hw⟩ := returns_ok_walk f d h
  have hT := loopTarget_eq hl
  have hU := Uint32_lt hl
  obtain ⟨t1, t2, t3, t4⟩ := walk_tiling f d hl h hd k _ hw
  dsimp only at t1 t3
  have hsum : Uint32 hl = ((walkCounts f (loopTarget hl) k).map fun n => 8 + 12 * n).sum := by
    omega
  have hge := sum_entry_sizes_ge _ t2
  rw [t4, ← hsum] at hge
  have hinside : 12 + Uint32 hl ≤ f.size := by
    cases k with
    | zero =>
      obtain ⟨h12, _⟩ := decodeHeader_ok_inv f hl hd
      have hs0 : Uint32 hl = 0 := by
        rw [hsum]
        rfl
      omega
    | succ j =>
      obtain ⟨st0, hw0, hc, hb⟩ := walk_succ_inv f _ j _ hw
      obtain ⟨u1, _, _, _⟩ := walk_tiling f d hl h hd j st0 hw0
      obtain ⟨id, nb, hid, hnb, hcases⟩ := resourceBody_cursor f st0 _ hb
      have hn := Uint32_lt nb
      have hle0 := walk_le_target f d hl h hd j st0 hw0
      have hne := no_empty_of_returns f _ h
      dsimp only at hcases
      rcases hcases with ⟨h0, _⟩ | ⟨h1, hcur⟩
      · exact absurd ⟨hl, j, st0, id, nb, hd, hw0, hc, hid, hnb, h0⟩ hne
      · have hsmall : wrap64 (st0.cursor + (8 + 12 * (Uint32 nb : Int))) =
            st0.cursor + (8 + 12 * (Uint32 nb : Int)) := wrap64_small _ (by omega) (by omega)
        rw [hsmall] at hcur
        have hend := entry_end_le_size f st0 _ nb hb hle0.1 (by omega) hnb h1 (by omega)
        omega
  have hzero : Uint32 hl = 0 ∨ 20 ≤ Uint32 hl := by
    cases k with
    | zero =>
      left
      rw [hsum]
      rfl
    | succ j =>
      right
      omega
  refine ⟨hl, k, hd, hw, hT, hinside, hsum, t4, t2, hzero, ?_⟩
  rw [Nat.le_div_iff_mul_le (by decide)]
  omega

theorem success_tiles_directory_witness :
    Returns exTex0
      (⟨[(ascii "TEX0", ⟨ascii "TEX0", [(0, ascii "AAAA"), (1, ascii "BBB")]⟩)]⟩, none) ∧
    ∃ (hl : List Byte) (k : Nat),
      decodeHeader exTex0 = .ok hl ∧
      walk exTex0 (loopTarget hl) k = some ⟨loopTarget hl,
        ⟨[(ascii "TEX0", ⟨ascii "TEX0", [(0, ascii "AAAA"), (1, ascii "BBB")]⟩)]⟩⟩ ∧
      loopTarget hl = 12 + (Uint32 hl : Int) ∧
      12 + Uint32 hl ≤ exTex0.size ∧
      Uint32 hl = ((walkCounts exTex0 (loopTarget hl) k).map fun n => 8 + 12 * n).sum ∧
      (walkCounts exTex0 (loopTarget hl) k).length = k ∧
      (∀ n ∈ walkCounts exTex0 (loopTarget hl) k, 1 ≤ n) ∧
      (Uint32 hl = 0 ∨ 20 ≤ Uint32 hl) ∧
      ([(ascii "TEX0", (⟨ascii "TEX0", [(0, ascii "AAAA"), (1, ascii "BBB")]⟩ : SrfResource))]).length ≤
        Uint32 hl / 20 :=
  have hr : Returns exTex0
      (⟨[(ascii "TEX0", ⟨ascii "TEX0", [(0, ascii "AAAA"), (1, ascii "BBB")]⟩)]⟩, none) :=
    ⟨2, by decide⟩
  ⟨hr, success_tiles_directory exTex0 _ hr⟩

theorem bytes_agree (a b : Source) (p len : Nat) (h : AgreeOn a b p (p + len)) :
    bytes a p len = bytes b p len := by
  unfold bytes
  apply List.map_congr_left
  intro i hi
  rw [List.mem_range] at hi
  exact h (p + i) (by omega) (by omega)

theorem ReadAt_agree (a b : Source) (hs : a.size = b.size) (len : Nat) (off : Int)
    (bs : List Byte) (h : ReadAt a len off = .ok bs)
    (hag : AgreeOn a b off.toNat (off.toNat + len)) : ReadAt b len off = .ok bs := by
  obtain ⟨h0, h1, h2⟩ := ReadAt_ok_inv a len off bs h
  have hneg : ¬ (off < 0) := by omega
  unfold ReadAt
  rw [if_neg hneg]
  by_cases hl : len = 0
  · rw [if_pos hl, h2, hl]
    rfl
  · rw [if_neg hl]
    rcases h1 with h1 | h1
    · exact absurd h1 hl
    · rw [← hs, if_pos h1, h2, bytes_agree a b _ _ hag]

theorem ReadAt_congr (a b : Source) (hs : a.size = b.size) (hb : AgreeOn a b 0 a.size) :
    ReadAt a = ReadAt b := by
  funext len off
  cases h : ReadAt a len off with
  | ok bs =>
    obtain ⟨h0, h1, _⟩ := ReadAt_ok_inv a len off bs h
    symm
    apply ReadAt_agree a b hs len off bs h
    intro j hj1 hj2
    rcases h1 with h1 | h1
    · omega
    · exact hb j (by omega) (by omega)
  | error e =>
    unfold ReadAt at h ⊢
    rw [← hs]
    by_cases hneg : off < 0
    · rw [if_pos hneg] at h ⊢
      exact h.symm
    · rw [if_neg hneg] at h ⊢
      by_cases hl : len = 0
      · rw [if_pos hl] at h
        cases h
      · rw [if_neg hl] at h ⊢
        by_cases hle : off.toNat + len ≤ a.size
        · rw [if_pos hle] at h
          cases h
        · rw [if_neg hle] at h ⊢
          exact h.symm

theorem itemBody_congr (a b : Source) (hR : ReadAt a = ReadAt b) :
    itemBody a = itemBody b := by
  funext n i st
  unfold itemBody
  rw [hR]

theorem itemLoop_congr (a b : Source) (hR : ReadAt a = ReadAt b) (n k : Nat) :
    ∀ (i : Nat) (st : ItemState), itemLoop a n k i st = itemLoop b n k i st := by
  induction k with
  | zero => intro i st; rw [itemLoop, itemLoop]
  | succ k ih =>
    intro i st
    rw [itemLoop, itemLoop, itemBody_congr a b hR]
    cases itemBody b n i st with
    | error e => rfl
    | ok st' => exact ih (i + 1) st'

theorem resourceBody_congr (a b : Source) (hR : ReadAt a = ReadAt b) (st : LoopState) :
    resourceBody a st = resourceBody b st := by
  have hL : itemLoop a = itemLoop b := by
    funext n k i s
    exact itemLoop_congr a b hR n k i s
  unfold resourceBody
  rw [hR, hL]

theorem resourceLoop_congr (a b : Source) (hR : ReadAt a = ReadAt b) (T : Int) (fuel : Nat) :
    ∀ st : LoopState, resourceLoop a T fuel st = resourceLoop b T fuel st := by
  induction fuel with
  | zero => intro st; rw [resourceLoop, resourceLoop]
  | succ n ih =>
    intro st
    rw [resourceLoop, resourceLoop, resourceBody_congr a b hR]
    by_cases hc : st.cursor = T
    · rw [if_pos hc, if_pos hc]
    · rw [if_neg hc, if_neg hc]
      cases resourceBody b st with
      | error e => rfl
      | ok st' => exact ih st'

theorem decodeHeader_congr (a b : Source) (hs : a.size = b.size) (hR : ReadAt a = ReadAt b) :
    decodeHeader a = decodeHeader b := by
  unfold decodeHeader
  rw [hR, hs]

theorem Read_moves_offset :
    (exTex0File.Read 4).1 = .ok srf1 ∧ (exTex0File.Read 4).2.offset = 4 ∧
    ((exTex0File.Read 4).2.Read 4).1 = .ok (putU32 51) := by
  decide

theorem WriteAt_changes_outcome :
    (exTex0File.WriteAt (ascii "X") 3).source.byteAt 3 = 0x58 ∧
    exTex0File.source.byteAt 3 = 0x31 ∧
    ((exTex0File.WriteAt (ascii "X") 3).DecodeSrfFile 2).map Prod.fst =
      some (SrfData.empty, some (.invalidMagic (ascii "srfX"))) ∧
    (exTex0File.DecodeSrfFile 2).map Prod.fst =
      some (⟨[(ascii "TEX0", ⟨ascii "TEX0", [(0, ascii "AAAA"), (1, ascii "BBB")]⟩)]⟩, none) := by
  decide


theorem itemBody_on_handle (h : File) (n i : Nat) (st : ItemState) :
    h.itemBody n i st = (itemBody h.source n i st, h) := by
  unfold File.itemBody itemBody File.ReadAt
  cases ReadAt h.source 4 (addInt (addInt st.cursor 8) (Int.ofNat (wrap32 (i * 12)))) with
  | error e => rfl
  | ok a =>
    dsimp only
    cases ReadAt h.source 4 (addInt (addInt st.cursor 12) (Int.ofNat (wrap32 (i * 12)))) with
    | error e => rfl
    | ok b =>
      dsimp only
      cases ReadAt h.source 4 (addInt (addInt st.cursor 16) (Int.ofNat (wrap32 (i * 12)))) with
      | error e => rfl
      | ok c =>
        dsimp only
        cases ReadAt h.source (Uint32 c) (Int.ofNat (Uint32 b)) with
        | error e => rfl
        | ok d =>
          dsimp only
          by_cases hn : wrap32 (i + 1) = n
          · rw [if_pos hn, if_pos hn]
          · rw [if_neg hn, if_neg hn]

theorem itemLoop_on_handle (n k : Nat) :
    ∀ (i : Nat) (st : ItemState) (h : File),
      File.itemLoop n k i st h = (itemLoop h.source n k i st, h) := by
  induction k with
  | zero => intro i st h; rw [File.itemLoop, itemLoop]
  | succ k ih =>
    intro i st h
    rw [File.itemLoop, itemLoop, itemBody_on_handle]
    cases itemBody h.source n i st with
    | error r => rfl
    | ok st1 => exact ih (i + 1) st1 h

theorem resourceBody_on_handle (h : File) (st : LoopState) :
    h.resourceBody st = (resourceBody h.source st, h) := by
  unfold File.resourceBody resourceBody File.ReadAt
  cases ReadAt h.source 4 st.cursor with
  | error e => rfl
  | ok a =>
    dsimp only
    cases ReadAt h.source 4 (addInt st.cursor 4) with
    | error e => rfl
    | ok b =>
      dsimp only
      rw [itemLoop_on_handle]
      cases itemLoop h.source (Uint32 b) (Uint32 b) 0 ⟨st.cursor, []⟩ with
      | error r => rfl
      | ok ist => rfl

theorem resourceLoop_on_handle (T : Int) (fuel : Nat) :
    ∀ (st : LoopState) (h : File),
      File.resourceLoop T fuel st h = (resourceLoop h.source T fuel st).map fun r => (r, h) := by
  induction fuel with
  | zero => intro st h; rw [File.resourceLoop, resourceLoop]; rfl
  | succ n ih =>
    intro st h
    rw [File.resourceLoop, resourceLoop, resourceBody_on_handle]
    by_cases hc : st.cursor = T
    · rw [if_pos hc, if_pos hc]
      rfl
    · rw [if_neg hc, if_neg hc]
      cases resourceBody h.source st with
      | error r => rfl
      | ok st1 => exact ih st1 h

theorem decodeHeader_on_handle (h : File) :
    h.decodeHeader = (decodeHeader h.source, h) := by
  unfold File.decodeHeader decodeHeader File.ReadAt File.Stat
  cases ReadAt h.source 4 0 with
  | error e => rfl
  | ok magic =>
    dsimp only
    by_cases hm : magic ≠ srf1
    · rw [if_pos hm, if_pos hm]
    · rw [if_neg hm, if_neg hm]
      cases ReadAt h.source 4 4 with
      | error e => rfl
      | ok fileLen =>
        dsimp only
        by_cases hl : Uint32 fileLen ≠ wrap32 h.source.size
        · rw [if_pos hl, if_pos hl]
        · rw [if_neg hl, if_neg hl]
          cases ReadAt h.source 4 8 with
          | error e => rfl
          | ok hl => rfl

theorem DecodeSrfFile_on_handle (h : File) (fuel : Nat) :
    h.DecodeSrfFile fuel = (DecodeSrfFile fuel h.source).map fun r => (r, h) := by
  rw [File.DecodeSrfFile, DecodeSrfFile, decodeHeader_on_handle]
  cases decodeHeader h.source with
  | error r => rfl
  | ok hl => exact resourceLoop_on_handle _ fuel _ h


/-- C12: decoding the same byte source twice yields equal outcomes; the decoder
keeps no state across calls and does not change the source.  With the handle
passed through every `ReadAt` and `Stat` of the call: a call that returns leaves
the handle as it found it (same size, same bytes, same seek offset), and a second
call on the handle it left returns too, with the same result (the same error, or
the same `SrfData`: equal keys, `Id` fields, item numbers and payloads); calls on
two handles whose files have the same size and the same bytes have the same
outcome for every fuel, whatever their seek offsets, and when both return the
results are equal and the second handle is unchanged as well. -/
theorem decode_twice_same_outcome (a b : File) (hs : a.source.size = b.source.size)
    (hb : AgreeOn a.source b.source 0 a.source.size) :
    (∀ (fuel : Nat) (r : Ret) (a1 : File), a.DecodeSrfFile fuel = some (r, a1) →
      a1 = a ∧ a1.DecodeSrfFile fuel = some (r, a)) ∧
    (∀ fuel, (a.DecodeSrfFile fuel).map Prod.fst = (b.DecodeSrfFile fuel).map Prod.fst) ∧
    (∀ (fuel fuel1 : Nat) (r r1 : Ret) (a1 b1 : File),
      a.DecodeSrfFile fuel = some (r, a1) → b.DecodeSrfFile fuel1 = some (r1, b1) →
        r = r1 ∧ b1 = b) := by
  have hR := ReadAt_congr a.source b.source hs hb
  have hfuel : ∀ fuel, DecodeSrfFile fuel a.source = DecodeSrfFile fuel b.source := by
    intro fuel
    rw [DecodeSrfFile, DecodeSrfFile, decodeHeader_congr a.source b.source hs hR]
    cases decodeHeader b.source with
    | error r => rfl
    | ok hl => exact resourceLoop_congr a.source b.source hR _ fuel _
  have inv : ∀ (c : File) (fuel : Nat) (r : Ret) (c1 : File),
      c.DecodeSrfFile fuel = some (r, c1) → DecodeSrfFile fuel c.source = some r ∧ c1 = c := by
    intro c fuel r c1 h
    rw [DecodeSrfFile_on_handle] at h
    cases hd : DecodeSrfFile fuel c.source with
    | none => rw [hd] at h; cases h
    | some x =>
      rw [hd] at h
      cases h
      exact ⟨rfl, rfl⟩
  refine ⟨?_, ?_, ?_⟩
  · intro fuel r a1 h
    obtain ⟨_, h2⟩ := inv a fuel r a1 h
    rw [h2] at h ⊢
    exact ⟨rfl, h⟩
  · intro fuel
    rw [DecodeSrfFile_on_handle, DecodeSrfFile_on_handle, hfuel fuel]
    cases DecodeSrfFile fuel b.source with
    | none => rfl
    | some x => rfl
  · intro fuel fuel1 r r1 a1 b1 ha hb1
    obtain ⟨h1, _⟩ := inv a fuel r a1 ha
    obtain ⟨h3, h4⟩ := inv b fuel1 r1 b1 hb1
    rw [← hfuel fuel1] at h3
    exact ⟨Returns_unique a.source r r1 ⟨fuel, h1⟩ ⟨fuel1, h3⟩, h4⟩

theorem decode_twice_same_outcome_witness :
    exTex0File.source.size = exTex0AliasFile.source.size ∧
    AgreeOn exTex0File.source exTex0AliasFile.source 0 exTex0File.source.size ∧
    (∀ (fuel : Nat) (r : Ret) (a1 : File), exTex0File.DecodeSrfFile fuel = some (r, a1) →
      a1 = exTex0File ∧ a1.DecodeSrfFile fuel = some (r, exTex0File)) ∧
    (∀ fuel, (exTex0File.DecodeSrfFile fuel).map Prod.fst =
      (exTex0AliasFile.DecodeSrfFile fuel).map Prod.fst) ∧
    (∀ (fuel fuel1 : Nat) (r r1 : Ret) (a1 b1 : File),
      exTex0File.DecodeSrfFile fuel = some (r, a1) →
      exTex0AliasFile.DecodeSrfFile fuel1 = some (r1, b1) →
        r = r1 ∧ b1 = exTex0AliasFile) :=
  have hs : exTex0File.source.size = exTex0AliasFile.source.size := by decide
  have hb : AgreeOn exTex0File.source exTex0AliasFile.source 0 exTex0File.source.size := by
    unfold AgreeOn
    decide
  ⟨hs, hb, decode_twice_same_outcome exTex0File exTex0AliasFile hs hb⟩

theorem itemWalk_initial (f : Source) (n : Nat) (c : Int) (i : Nat) :
    ∀ ist : ItemState, itemWalk f n c i = some ist →
      ∀ j, j ≤ i → ∃ x, itemWalk f n c j = some x := by
  induction i with
  | zero =>
    intro ist h j hj
    have hj0 : j = 0 := by omega
    subst hj0
    exact ⟨ist, h⟩
  | succ i ih =>
    intro ist h j hj
    by_cases hji : j = i + 1
    · subst hji
      exact ⟨ist, h⟩
    · obtain ⟨ist0, hw, _⟩ := itemWalk_succ_inv f n c i ist h
      exact ih ist0 hw j (by omega)

theorem readRecord_of_reads (f : Source) (cursor : Int) (i : Nat) (a b c : List Byte)
    (ha : ReadAt f 4 (addInt (addInt cursor 8) (Int.ofNat (wrap32 (i * 12)))) = .ok a)
    (hb : ReadAt f 4 (addInt (addInt cursor 12) (Int.ofNat (wrap32 (i * 12)))) = .ok b)
    (hc : ReadAt f 4 (addInt (addInt cursor 16) (Int.ofNat (wrap32 (i * 12)))) = .ok c) :
    readRecord f cursor i = some ⟨Uint32 a, Uint32 b, Uint32 c⟩ := by
  unfold readRecord
  rw [ha, hb, hc]

/-- C16: on a source smaller than 2^32 bytes, when the walk reaches record `i`
of the entry at cursor `R` and the three field reads of that record succeed,
`12 * i` is below 2^32, so that the `uint32` product `i * 12` is not reduced,
and the three fields are the big-endian values stored at `R + 8 + 12 * i`,
`R + 12 + 12 * i` and `R + 16 + 12 * i`, all inside the source. -/
theorem record_offset_never_wraps (f : Source) (hsmall : f.size < 4294967296) (R : Int)
    (i : Nat) (r : Record) (h : ReachesRecordAt f R i r) :
    12 * i < 4294967296 ∧ wrap32 (i * 12) = i * 12 ∧ 0 ≤ R ∧
    R.toNat + 20 + 12 * i ≤ f.size ∧
    r.num = be32At f (R.toNat + 8 + 12 * i) ∧
    r.off = be32At f (R.toNat + 12 + 12 * i) ∧
    r.size = be32At f (R.toNat + 16 + 12 * i) := by
  obtain ⟨hl, k, st, id, nb, ist, hd, hw, hne, hR, hid, hnb, hi, hiw, hrec⟩ := h
  subst hR
  have hn := Uint32_lt nb
  obtain ⟨hR0, hR4, _⟩ := ReadAt4_ok_inv f st.cursor id hid
  have hcur := itemWalk_cursor f (Uint32 nb) st.cursor hn i ist hi hiw
  rw [hcur] at hrec
  have hc62 : st.cursor < 4611686018427387904 := by omega
  have hi12 : i * 12 < 4294967296 := by
    by_contra hcon
    have hbig : 357913941 + 1 ≤ i := by omega
    obtain ⟨x, hx⟩ := itemWalk_initial f (Uint32 nb) st.cursor i ist hiw (357913941 + 1) hbig
    obtain ⟨ist0, hw0, hb0⟩ := itemWalk_succ_inv f (Uint32 nb) st.cursor 357913941 x hx
    have hcur0 := itemWalk_cursor f (Uint32 nb) st.cursor hn 357913941 ist0 (by omega) hw0
    obtain ⟨num, off, size, data, hnum, _, _, _, _⟩ :=
      itemBody_ok_inv f (Uint32 nb) 357913941 ist0 x hb0
    rw [hcur0, recordOffsetInt st.cursor 357913941 8 hR0 hc62 (by decide) (by decide)
      (by decide)] at hnum
    obtain ⟨_, h4, _⟩ := ReadAt4_ok_inv f _ num hnum
    omega
  obtain ⟨a, b, c, ha, hb, hc, hr⟩ := readRecord_some f st.cursor i r hrec
  rw [recordOffsetInt st.cursor i 8 hR0 hc62 (by decide) (by decide) hi12] at ha
  rw [recordOffsetInt st.cursor i 12 hR0 hc62 (by decide) (by decide) hi12] at hb
  rw [recordOffsetInt st.cursor i 16 hR0 hc62 (by decide) (by decide) hi12] at hc
  obtain ⟨_, _, ea⟩ := ReadAt4_ok_inv f _ a ha
  obtain ⟨_, _, eb⟩ := ReadAt4_ok_inv f _ b hb
  obtain ⟨_, sc, ec⟩ := ReadAt4_ok_inv f _ c hc
  have ta : (st.cursor + 8 + 12 * (i : Int)).toNat = st.cursor.toNat + 8 + 12 * i := by omega
  have tb : (st.cursor + 12 + 12 * (i : Int)).toNat = st.cursor.toNat + 12 + 12 * i := by omega
  have tc : (st.cursor + 16 + 12 * (i : Int)).toNat = st.cursor.toNat + 16 + 12 * i := by omega
  rw [ta] at ea
  rw [tb] at eb
  rw [tc] at ec sc
  rw [hr]
  dsimp only
  unfold be32At
  rw [← ea, ← eb, ← ec]
  exact ⟨by omega, wrap32_small _ hi12, hR0, by omega, rfl, rfl, rfl⟩

theorem record_offset_never_wraps_witness :
    exTex0.size < 4294967296 ∧ ReachesRecordAt exTex0 12 1 ⟨1, 48, 3⟩ ∧
    12 * 1 < 4294967296 ∧ wrap32 (1 * 12) = 1 * 12 ∧ (0 : Int) ≤ 12 ∧
    (12 : Int).toNat + 20 + 12 * 1 ≤ exTex0.size ∧
    (⟨1, 48, 3⟩ : Record).num = be32At exTex0 ((12 : Int).toNat + 8 + 12 * 1) ∧
    (⟨1, 48, 3⟩ : Record).off = be32At exTex0 ((12 : Int).toNat + 12 + 12 * 1) ∧
    (⟨1, 48, 3⟩ : Record).size = be32At exTex0 ((12 : Int).toNat + 16 + 12 * 1) :=
  have hr : ReachesRecordAt exTex0 12 1 ⟨1, 48, 3⟩ :=
    ⟨putU32 32, 0, loopStart, ascii "TEX0", putU32 2, ⟨12, [(0, ascii "AAAA")]⟩, by decide,
      by decide, by decide, by decide, by decide, by decide, by decide, by decide, by decide⟩
  ⟨by decide, hr, record_offset_never_wraps exTex0 (by decide) 12 1 ⟨1, 48, 3⟩ hr⟩

theorem ReadAt_zero (f : Source) (off : Int) (h : 0 ≤ off) : ReadAt f 0 off = .ok [] := by
  have hneg : ¬ (off < 0) := by omega
  unfold ReadAt
  rw [if_neg hneg, if_pos rfl]

theorem ReadAt_payload (f : Source) (r : Record) (hp : r.size = 0 ∨ r.off + r.size ≤ f.size) :
    ReadAt f r.size (r.off : Int) = .ok (payload f r) := by
  rcases hp with h0 | hle
  · unfold payload
    rw [h0]
    exact ReadAt_zero f _ (by omega)
  · exact ReadAt_ok' f r.size r.off hle

theorem itemBody_spec_upToEmpty (f : Source) (c n i : Nat) (items : List (Int × List Byte)) (r : Record)
    (hsmall : f.size < 4294967296) (hsz : c + 8 + 12 * n ≤ f.size) (hi : i < n)
    (hnum : be32At f (c + 8 + 12 * i) = r.num) (hoff : be32At f (c + 12 + 12 * i) = r.off)
    (hsize : be32At f (c + 16 + 12 * i) = r.size) (hp : r.size = 0 ∨ r.off + r.size ≤ f.size) :
    itemBody f n i ⟨(c : Int), items⟩ =
      .ok ⟨if i + 1 = n then ((c + 8 + 12 * n : Nat) : Int) else (c : Int),
        mapSet items (r.num : Int) (payload f r)⟩ := by
  have hb : c + 16 + 12 * i < 4294967296 := by omega
  have h8 : c + 8 + 12 * i + 4 ≤ f.size := by omega
  have h12 : c + 12 + 12 * i + 4 ≤ f.size := by omega
  have h16 : c + 16 + 12 * i + 4 ≤ f.size := by omega
  have hi1 : i + 1 < 4294967296 := by omega
  have hn : c + 8 + 12 * n < 4294967296 := by omega
  have a8 := recordOffset c i 8 (by decide) hb
  have a12 := recordOffset c i 12 (by decide) hb
  have a16 := recordOffset c i 16 (by decide) hb
  simp only [Nat.cast_ofNat] at a8 a12 a16
  have r8 := (congrArg (ReadAt f 4) a8).trans (ReadAt_ok' f 4 (c + 8 + 12 * i) h8)
  have r12 := (congrArg (ReadAt f 4) a12).trans (ReadAt_ok' f 4 (c + 12 + 12 * i) h12)
  have r16 := (congrArg (ReadAt f 4) a16).trans (ReadAt_ok' f 4 (c + 16 + 12 * i) h16)
  unfold be32At at hnum hoff hsize
  have rp : ReadAt f (Uint32 (bytes f (c + 16 + 12 * i) 4))
      (Int.ofNat (Uint32 (bytes f (c + 12 + 12 * i) 4))) = .ok (payload f r) := by
    rw [hoff, hsize]
    exact ReadAt_payload f r hp
  have hw : wrap32 (i + 1) = i + 1 := wrap32_small _ hi1
  have hadv := cursorAdvance c n hn
  have hbody := itemBody_of_reads f n i ⟨(c : Int), items⟩ _ _ _ _ r8 r12 r16 rp
  rw [hbody, hnum, hw]
  split
  · dsimp only
    rw [hadv]
    rfl
  · rfl

theorem itemLoop_spec_upToEmpty (f : Source) (c : Nat) (recs : List Record)
    (hsmall : f.size < 4294967296) (hsz : c + 8 + 12 * recs.length ≤ f.size)
    (hrec : ∀ (i : Nat) (h : i < recs.length),
      be32At f (c + 8 + 12 * i) = (recs[i]).num ∧ be32At f (c + 12 + 12 * i) = (recs[i]).off ∧
      be32At f (c + 16 + 12 * i) = (recs[i]).size)
    (hp : ∀ r ∈ recs, r.size = 0 ∨ r.off + r.size ≤ f.size) (k : Nat) :
    ∀ (i : Nat) (items : List (Int × List Byte)), i + (k + 1) = recs.length →
      itemLoop f recs.length (k + 1) i ⟨(c : Int), items⟩ =
        .ok ⟨((c + 8 + 12 * recs.length : Nat) : Int), itemsFrom f items (recs.drop i)⟩ := by
  induction k with
  | zero =>
    intro i items hik
    have hi : i < recs.length := by omega
    have hlast : i + 1 = recs.length := by omega
    obtain ⟨h1, h2, h3⟩ := hrec i hi
    have hb := itemBody_spec_upToEmpty f c recs.length i items recs[i] hsmall hsz hi h1 h2 h3
      (hp _ (List.getElem_mem _))
    have hd : recs.drop i = [recs[i]] := by
      rw [List.drop_eq_getElem_cons hi, List.drop_of_length_le (by omega)]
    rw [itemLoop, hb, if_pos hlast, hd]
    dsimp only
    rw [itemLoop, itemsFrom, List.foldl_cons, List.foldl_nil]
  | succ k ih =>
    intro i items hik
    have hi : i < recs.length := by omega
    have hne : ¬ (i + 1 = recs.length) := by omega
    have hnext : i + 1 + (k + 1) = recs.length := by omega
    obtain ⟨h1, h2, h3⟩ := hrec i hi
    have hb := itemBody_spec_upToEmpty f c recs.length i items recs[i] hsmall hsz hi h1 h2 h3
      (hp _ (List.getElem_mem _))
    rw [itemLoop, hb, if_neg hne]
    dsimp only
    rw [ih (i + 1) _ hnext, List.drop_eq_getElem_cons hi, itemsFrom, itemsFrom, List.foldl_cons]

theorem resourceBody_spec_upToEmpty (f : Source) (c : Nat) (e : Entry) (d : SrfData)
    (hsmall : f.size < 4294967296) (hsz : c + e.size ≤ f.size) (he : EntryAt f c e)
    (hp : ∀ r ∈ e.recs, r.size = 0 ∨ r.off + r.size ≤ f.size) :
    resourceBody f ⟨(c : Int), d⟩ =
      .ok ⟨((c + e.size : Nat) : Int), ⟨mapSet d.Resources e.id (entryResource f e)⟩⟩ := by
  obtain ⟨hid, hn, h1, hrec⟩ := he
  unfold Entry.size at hsz ⊢
  have hsz2 : c + 8 + 12 * e.recs.length ≤ f.size := by omega
  have hc4 : c + 4 ≤ f.size := by omega
  have hc8 : c + 4 + 4 ≤ f.size := by omega
  have hlo : -9223372036854775808 ≤ (c : Int) + 4 := by omega
  have hhi : (c : Int) + 4 < 9223372036854775808 := by omega
  obtain ⟨k, hk⟩ : ∃ k, e.recs.length = k + 1 := ⟨e.recs.length - 1, by omega⟩
  have hk0 : 0 + (k + 1) = e.recs.length := by omega
  have rid := ReadAt_ok' f 4 c hc4
  have a4 : addInt (c : Int) 4 = ((c + 4 : Nat) : Int) :=
    (addInt_small _ _ hlo hhi).trans (Nat.cast_add c 4).symm
  have rn := (congrArg (ReadAt f 4) a4).trans (ReadAt_ok' f 4 (c + 4) hc8)
  unfold be32At at hn
  have hl := itemLoop_spec_upToEmpty f c e.recs hsmall hsz2 hrec hp k 0 [] hk0
  rw [← hk, List.drop_zero] at hl
  rw [← hn] at hl
  have hb := resourceBody_of_reads f ⟨(c : Int), d⟩ _ _ _ rid rn hl
  rw [hb, hid]
  dsimp only [entryResource]
  rw [hn, Nat.add_assoc]

theorem resourceLoop_spec_upToEmpty (f : Source) (T : Nat) (hsmall : f.size < 4294967296) (hT : T ≤ f.size)
    (dir : List Entry) :
    ∀ (c : Nat) (d : SrfData) (fuel : Nat), DirAt f c dir → c + dirSize dir = T →
      (∀ e ∈ dir, ∀ r ∈ e.recs, r.size = 0 ∨ r.off + r.size ≤ f.size) → dir.length < fuel →
      resourceLoop f (T : Int) fuel ⟨(c : Int), d⟩ =
        some (⟨resourcesFrom f d.Resources dir⟩, none) := by
  induction dir with
  | nil =>
    intro c d fuel _ hc _ hfuel
    rw [List.length_nil] at hfuel
    obtain ⟨m, rfl⟩ : ∃ m, fuel = m + 1 := ⟨fuel - 1, by omega⟩
    have hcT : c = T := by
      unfold dirSize at hc
      rw [List.map_nil, List.sum_nil] at hc
      omega
    subst hcT
    rw [resourceLoop, if_pos rfl]
    rfl
  | cons e es ih =>
    intro c d fuel hdir hc hp hfuel
    rw [List.length_cons] at hfuel
    obtain ⟨m, rfl⟩ : ∃ m, fuel = m + 1 := ⟨fuel - 1, by omega⟩
    obtain ⟨he, hes⟩ := hdir
    rw [dirSize_cons] at hc
    have h1 : 1 ≤ e.recs.length := he.2.2.1
    have hsz : 20 ≤ e.size := by unfold Entry.size; omega
    have hne : ¬ ((c : Int) = (T : Int)) := by omega
    have hle : c + e.size ≤ f.size := by omega
    have hnext : c + e.size + dirSize es = T := by omega
    have hm : es.length < m := by omega
    have hb := resourceBody_spec_upToEmpty f c e d hsmall hle he (hp e (List.mem_cons_self _ _))
    rw [resourceLoop]
    dsimp only
    rw [if_neg hne, hb]
    dsimp only
    rw [ih (c + e.size) _ m hes hnext (fun e' he' => hp e' (List.mem_cons_of_mem _ he')) hm]
    dsimp only [resourcesFrom]
    rw [List.foldl_cons]

theorem DecodeSrfFile_wellFormedUpToEmpty (f : Source) (dir : List Entry) (h : WellFormedUpToEmpty f dir)
    (fuel : Nat) (hfuel : dir.length < fuel) :
    DecodeSrfFile fuel f = some (⟨resourcesFrom f [] dir⟩, none) := by
  have hs := h.small
  have hin := h.inside
  have h12 : 12 ≤ f.size := by omega
  have hw : wrap32 f.size = f.size := wrap32_small _ hs
  have hd := decodeHeader_ok f h12 h.magic (by rw [hw]; exact h.fileLength)
  have h1 := h.headerLength
  unfold be32At at h1
  have hlo : -9223372036854775808 ≤ (12 : Int) + ((dirSize dir : Nat) : Int) := by omega
  have hhi : (12 : Int) + ((dirSize dir : Nat) : Int) < 9223372036854775808 := by omega
  have ht : loopTarget (bytes f 8 4) = ((12 + dirSize dir : Nat) : Int) := by
    unfold loopTarget
    rw [h1, Int.ofNat_eq_coe, addInt_small _ _ hlo hhi, Nat.cast_add]
    rfl
  have hloop := resourceLoop_spec_upToEmpty f (12 + dirSize dir) hs hin dir 12 ⟨[]⟩ fuel h.directory rfl
    h.payloads hfuel
  rw [DecodeSrfFile, hd]
  dsimp only
  rw [ht]
  exact hloop

/-- C18: a positioned read of zero bytes succeeds at every non-negative offset,
and on a source that is well-formed except that records of size 0 may point
anywhere, also beyond the end, `DecodeSrfFile` succeeds; a record of size 0
that is the last with its item number, in the entry that is the last with its
identifier, maps that number to the empty payload. -/
theorem zero_size_item_decodes (f : Source) (dir : List Entry)
    (h : WellFormedUpToEmpty f dir) (e : Entry) (he : lastEntry dir e.id = some e)
    (r : Record) (hr : lastRecord e (r.num : Int) = some r) (h0 : r.size = 0) :
    (∀ off : Int, 0 ≤ off → ReadAt f 0 off = .ok []) ∧
    ∃ (d : SrfData) (res : SrfResource),
      (∀ fuel, dir.length < fuel → DecodeSrfFile fuel f = some (d, none)) ∧
      mapGet d.Resources e.id = some res ∧
      mapGet res.Items (r.num : Int) = some [] := by
  refine ⟨ReadAt_zero f, ⟨resourcesFrom f [] dir⟩, entryResource f e,
    fun fuel hfuel => DecodeSrfFile_wellFormedUpToEmpty f dir h fuel hfuel, ?_, ?_⟩
  · show mapGet (resourcesFrom f [] dir) e.id = _
    rw [resources_lookup, he]
    rfl
  · rw [items_lookup, hr]
    show some (bytes f r.off r.size) = some []
    rw [h0]
    rfl

theorem zero_size_item_decodes_witness :
    WellFormedUpToEmpty exZeroSizeItem exZeroSizeItemDir ∧
    exZeroSizeItem.size < 1000 ∧
    (∀ off : Int, 0 ≤ off → ReadAt exZeroSizeItem 0 off = .ok []) ∧
    ∃ (d : SrfData) (res : SrfResource),
      (∀ fuel, exZeroSizeItemDir.length < fuel →
        DecodeSrfFile fuel exZeroSizeItem = some (d, none)) ∧
      mapGet d.Resources (ascii "TEX0") = some res ∧
      mapGet res.Items 7 = some [] :=
  have wf : WellFormedUpToEmpty exZeroSizeItem exZeroSizeItemDir :=
    ⟨by decide, by decide, by decide, by decide, by decide,
      ⟨⟨by decide, by decide, by decide, by decide⟩, trivial⟩, by decide⟩
  ⟨wf, by decide, zero_size_item_decodes exZeroSizeItem exZeroSizeItemDir wf
    ⟨ascii "TEX0", [⟨7, 1000, 0⟩]⟩ (by decide) ⟨7, 1000, 0⟩ (by decide) rfl⟩

theorem AgreeOn_mono (a b : Source) (lo hi lo' hi' : Nat) (h : AgreeOn a b lo hi)
    (h1 : lo ≤ lo') (h2 : hi' ≤ hi) : AgreeOn a b lo' hi' :=
  fun j hj1 hj2 => h j (by omega) (by omega)

theorem itemWalk_agree (a b : Source) (hs : a.size = b.size) (T : Nat) (hT : T < 4294967308)
    (hdir : AgreeOn a b 0 T) (n : Nat) (c : Int) (hc0 : 0 ≤ c)
    (hend : c + 8 + 12 * (n : Int) ≤ (T : Int))
    (hpay : ∀ (i : Nat) (ist : ItemState) (r : Record), i < n →
      itemWalk a n c i = some ist → readRecord a ist.cursor i = some r →
      AgreeOn a b r.off (r.off + r.size))
    (i : Nat) :
    ∀ x : ItemState, i ≤ n → itemWalk a n c i = some x → itemWalk b n c i = some x := by
  have hn : n < 4294967296 := by omega
  induction i with
  | zero =>
    intro x _ h
    rw [itemWalk] at h ⊢
    exact h
  | succ i ih =>
    intro x hi h
    obtain ⟨ist0, hw0, hb0⟩ := itemWalk_succ_inv a n c i x h
    have hwb0 := ih ist0 (by omega) hw0
    have hcur := itemWalk_cursor a n c hn i ist0 (by omega) hw0
    obtain ⟨num, off, size, data, hnum, hoff, hsize, hdata, hx⟩ :=
      itemBody_ok_inv a n i ist0 x hb0
    have hc62 : c < 4611686018427387904 := by omega
    have hi12 : i * 12 < 4294967296 := by omega
    have e8 : addInt (addInt ist0.cursor 8) (Int.ofNat (wrap32 (i * 12))) = c + 8 + 12 * (i : Int) := by
      rw [hcur]
      exact recordOffsetInt c i 8 hc0 hc62 (by decide) (by decide) hi12
    have e12 : addInt (addInt ist0.cursor 12) (Int.ofNat (wrap32 (i * 12))) = c + 12 + 12 * (i : Int) := by
      rw [hcur]
      exact recordOffsetInt c i 12 hc0 hc62 (by decide) (by decide) hi12
    have e16 : addInt (addInt ist0.cursor 16) (Int.ofNat (wrap32 (i * 12))) = c + 16 + 12 * (i : Int) := by
      rw [hcur]
      exact recordOffsetInt c i 16 hc0 hc62 (by decide) (by decide) hi12
    have hrec := readRecord_of_reads a ist0.cursor i num off size hnum hoff hsize
    have hag := hpay i ist0 _ (by omega) hw0 hrec
    dsimp only at hag
    have hnumB : ReadAt b 4 (addInt (addInt ist0.cursor 8) (Int.ofNat (wrap32 (i * 12)))) = .ok num := by
      apply ReadAt_agree a b hs 4 _ num hnum
      rw [e8]
      exact AgreeOn_mono a b 0 T _ _ hdir (by omega) (by omega)
    have hoffB : ReadAt b 4 (addInt (addInt ist0.cursor 12) (Int.ofNat (wrap32 (i * 12)))) = .ok off := by
      apply ReadAt_agree a b hs 4 _ off hoff
      rw [e12]
      exact AgreeOn_mono a b 0 T _ _ hdir (by omega) (by omega)
    have hsizeB : ReadAt b 4 (addInt (addInt ist0.cursor 16) (Int.ofNat (wrap32 (i * 12)))) = .ok size := by
      apply ReadAt_agree a b hs 4 _ size hsize
      rw [e16]
      exact AgreeOn_mono a b 0 T _ _ hdir (by omega) (by omega)
    have hdataB : ReadAt b (Uint32 size) (Int.ofNat (Uint32 off)) = .ok data := by
      apply ReadAt_agree a b hs _ _ data hdata
      rw [Int.ofNat_eq_coe, Int.toNat_ofNat]
      exact hag
    have hbody := itemBody_of_reads b n i ist0 num off size data hnumB hoffB hsizeB hdataB
    rw [← hx] at hbody
    exact itemWalk_succ b n c i ist0 x hwb0 hbody

theorem resourceBody_agree (a b : Source) (hs : a.size = b.size) (T : Nat) (hT : T < 4294967308)
    (hdir : AgreeOn a b 0 T) (st st' : LoopState) (hb : resourceBody a st = .ok st')
    (hc0 : 0 ≤ st.cursor) (hcT : st.cursor ≤ (T : Int)) (hcT' : st'.cursor ≤ (T : Int))
    (hn1 : ∀ nb, ReadAt a 4 (addInt st.cursor 4) = .ok nb → 1 ≤ Uint32 nb)
    (hpay : ∀ (nb : List Byte) (i : Nat) (ist : ItemState) (r : Record),
      ReadAt a 4 (addInt st.cursor 4) = .ok nb → i < Uint32 nb →
      itemWalk a (Uint32 nb) st.cursor i = some ist → readRecord a ist.cursor i = some r →
      AgreeOn a b r.off (r.off + r.size)) :
    resourceBody b st = .ok st' := by
  obtain ⟨id, nb, ist, hid, hnb, hloop, hst⟩ := resourceBody_ok_inv a st st' hb
  obtain ⟨id', nb', _, hnb', hcases⟩ := resourceBody_cursor a st st' hb
  rw [hnb] at hnb'
  cases hnb'
  have hn := Uint32_lt nb
  have h1 := hn1 nb hnb
  have hend : st.cursor + 8 + 12 * (Uint32 nb : Int) ≤ (T : Int) := by
    rcases hcases with ⟨h0, _⟩ | ⟨_, hcur⟩
    · omega
    · have hsmall : wrap64 (st.cursor + (8 + 12 * (Uint32 nb : Int))) =
          st.cursor + (8 + 12 * (Uint32 nb : Int)) := wrap64_small _ (by omega) (by omega)
      rw [hsmall] at hcur
      omega
  have e4 : addInt st.cursor 4 = st.cursor + 4 := addInt_small _ _ (by omega) (by omega)
  have hidB : ReadAt b 4 st.cursor = .ok id := by
    apply ReadAt_agree a b hs 4 _ id hid
    exact AgreeOn_mono a b 0 T _ _ hdir (by omega) (by omega)
  have hnbB : ReadAt b 4 (addInt st.cursor 4) = .ok nb := by
    apply ReadAt_agree a b hs 4 _ nb hnb
    rw [e4]
    exact AgreeOn_mono a b 0 T _ _ hdir (by omega) (by omega)
  have hw0 : itemWalk a (Uint32 nb) st.cursor 0 = some ⟨st.cursor, []⟩ := by rw [itemWalk]
  have hw := itemLoop_itemWalk a (Uint32 nb) st.cursor (Uint32 nb) 0 _ ist hw0 hloop
  rw [Nat.zero_add] at hw
  have hwB := itemWalk_agree a b hs T hT hdir (Uint32 nb) st.cursor hc0 hend
    (fun i ist0 r hi hiw hrec => hpay nb i ist0 r hnb hi hiw hrec) (Uint32 nb) ist
    (Nat.le_refl _) hw
  have hloopB : itemLoop b (Uint32 nb) (Uint32 nb) 0 ⟨st.cursor, []⟩ = .ok ist := by
    have h2 := itemWalk_itemLoop b (Uint32 nb) st.cursor (Uint32 nb) ist hwB 0
    rw [Nat.add_zero] at h2
    rw [h2, itemLoop]
  rw [resourceBody_of_reads b st id nb ist hidB hnbB hloopB, hst]

/-- C15: if `DecodeSrfFile` succeeds on a source `a`, and `b` has the size of `a`
and the same bytes as `a` from 0 up to `0x0C + header_length` and in the payload
range of every item record that the walk of `a` reaches, then `DecodeSrfFile`
succeeds on `b` with the same result. -/
theorem decode_depends_on_referenced_bytes (a b : Source) (d : SrfData)
    (h : Returns a (d, none)) (hs : a.size = b.size)
    (hdir : AgreeOn a b 0 (12 + be32At a 8))
    (hpay : ∀ r : Record, ReachesRecord a r → AgreeOn a b r.off (r.off + r.size)) :
    Returns b (d, none) := by
  obtain ⟨hl, k, hd, hw⟩ := returns_ok_walk a d h
  obtain ⟨h12, ehl, hm, hlen⟩ := decodeHeader_ok_inv a hl hd
  have hU := Uint32_lt hl
  have hbe : be32At a 8 = Uint32 hl := by
    unfold be32At
    rw [ehl]
  rw [hbe] at hdir
  have hTeq : loopTarget hl = ((12 + Uint32 hl : Nat) : Int) := by
    rw [loopTarget_eq]
    push_cast
    rfl
  have b0 := bytes_agree a b 0 4 (AgreeOn_mono a b 0 _ _ _ hdir (by omega) (by omega))
  have b4 := bytes_agree a b 4 4 (AgreeOn_mono a b 0 _ _ _ hdir (by omega) (by omega))
  have b8 := bytes_agree a b 8 4 (AgreeOn_mono a b 0 _ _ _ hdir (by omega) (by omega))
  have hdb : decodeHeader b = .ok hl := by
    rw [ehl, b8]
    apply decodeHeader_ok b (by omega)
    · rw [← b0]; exact hm
    · rw [← b4, ← hs]; exact hlen
  have hne := no_empty_of_returns a _ h
  have hsim : ∀ (j : Nat) (st : LoopState), walk a (loopTarget hl) j = some st →
      walk b (loopTarget hl) j = some st := by
    intro j
    induction j with
    | zero =>
      intro st hwj
      rw [walk] at hwj ⊢
      exact hwj
    | succ j ih =>
      intro st' hwj
      obtain ⟨st0, hw0, hc, hb⟩ := walk_succ_inv a _ j st' hwj
      have hwb0 := ih st0 hw0
      have hle0 := walk_le_target a d hl h hd j st0 hw0
      have hle1 := walk_le_target a d hl h hd (j + 1) st' hwj
      obtain ⟨id, nb0, _, hid, _, _, _⟩ := resourceBody_ok_inv a st0 st' hb
      rw [hTeq] at hle0 hle1
      have hbB := resourceBody_agree a b hs (12 + Uint32 hl) (by omega) hdir st0 st' hb
        hle0.1 hle0.2 hle1.2
        (fun nb hnb => by
          by_contra hcon
          exact hne ⟨hl, j, st0, id, nb, hd, hw0, hc, hid, hnb, by omega⟩)
        (fun nb i ist r hnb hi hiw hrec =>
          hpay r ⟨hl, j, st0, id, nb, i, ist, hd, hw0, hc, hid, hnb, hi, hiw, hrec⟩)
      exact walk_succ b _ j st0 st' hwb0 hc hbB
  have hwb := hsim k _ hw
  exact ⟨k + 1, walk_returns b hl k _ hdb hwb rfl⟩


theorem walk_after_stop (f : Source) (T : Int) (j : Nat) (s : LoopState)
    (hw : walk f T j = some s) (hc : s.cursor = T) (m : Nat) :
    walk f T (j + 1 + m) = none := by
  induction m with
  | zero => rw [Nat.add_zero, walk, hw]; dsimp only; rw [if_pos hc]
  | succ m ih => rw [← Nat.add_assoc, walk, ih]

theorem exGapA_records (r : Record) (h : ReachesRecord exGapA r) : r = ⟨3, 36, 2⟩ := by
  obtain ⟨hl, k, st, id, nb, i, ist, hd, hw, hne, hid, hnb, hi, hiw, hrec⟩ := h
  have hdec : decodeHeader exGapA = .ok (putU32 20) := by decide
  rw [hdec] at hd
  cases hd
  have hw1 : walk exGapA (loopTarget (putU32 20)) 1 =
      some ⟨32, ⟨[(ascii "TEX0", ⟨ascii "TEX0", [(3, ascii "ab")]⟩)]⟩⟩ := by decide
  have hT : loopTarget (putU32 20) = 32 := by decide
  match k, hw with
  | 0, hw =>
    rw [walk] at hw
    cases hw
    have hnb1 : ReadAt exGapA 4 (addInt loopStart.cursor 4) = .ok (putU32 1) := by decide
    rw [hnb1] at hnb
    cases hnb
    have h1 : Uint32 (putU32 1) = 1 := by decide
    rw [h1] at hi hiw
    have hi0 : i = 0 := by omega
    subst hi0
    rw [itemWalk] at hiw
    cases hiw
    have hrec1 : readRecord exGapA loopStart.cursor 0 = some ⟨3, 36, 2⟩ := by decide
    rw [hrec1] at hrec
    cases hrec
    rfl
  | 1, hw =>
    rw [hw1] at hw
    cases hw
    exact absurd hT.symm hne
  | k + 2, hw =>
    have hnone := walk_after_stop exGapA _ 1 _ hw1 hT.symm k
    rw [show 1 + 1 + k = k + 2 by omega] at hnone
    rw [hnone] at hw
    cases hw

theorem decode_depends_on_referenced_bytes_witness :
    Returns exGapA (⟨[(ascii "TEX0", ⟨ascii "TEX0", [(3, ascii "ab")]⟩)]⟩, none) ∧
    exGapA.size = exGapB.size ∧
    AgreeOn exGapA exGapB 0 (12 + be32At exGapA 8) ∧
    (∀ r : Record, ReachesRecord exGapA r → AgreeOn exGapA exGapB r.off (r.off + r.size)) ∧
    exGapA.byteAt 32 ≠ exGapB.byteAt 32 ∧
    Returns exGapB (⟨[(ascii "TEX0", ⟨ascii "TEX0", [(3, ascii "ab")]⟩)]⟩, none) :=
  have hr : Returns exGapA (⟨[(ascii "TEX0", ⟨ascii "TEX0", [(3, ascii "ab")]⟩)]⟩, none) :=
    ⟨2, by decide⟩
  have hdir : AgreeOn exGapA exGapB 0 (12 + be32At exGapA 8) := by
    unfold AgreeOn
    decide
  have hpay : ∀ r : Record, ReachesRecord exGapA r →
      AgreeOn exGapA exGapB r.off (r.off + r.size) := by
    intro r hreach
    rw [exGapA_records r hreach]
    unfold AgreeOn
    decide
  ⟨hr, by decide, hdir, hpay, by decide,
    decode_depends_on_referenced_bytes exGapA exGapB _ hr (by decide) hdir hpay⟩

end Libsrf
